import Mathlib

/-!
# nano-common: flag accessors, flag-enum operators, diagnostics, traits

A shallow embedding of `src/nano/common.h`:

* `has_flag` / `set_flag` (lines 302-320),
* the operators generated by `NANO_ENUM_CLASS_FLAGS` (lines 193-226),
* `cxpr::abs` on integer types (lines 368-377),
* `NANO_ASSERT` / `NANO_ERROR`, `custom_assert` / `custom_error` and the choice
  of the trap (lines 246-299),
* `detector_value` / `has_members` / `enable_if_has_members_t` (lines 333-347),
* `fcompare` (lines 349-366) over a binary floating-point format with rounding
  to nearest, ties to even.

## Machine integers

An object of an integral type of width `w` is represented by its bit pattern,
a natural number below `2 ^ w`.  A signed type reads the pattern in two's
complement (`toValue`).  Conversions between integral types preserve the value
modulo `2 ^ width` of the destination (`convert`), which is what integral
promotion and `static_cast` do.  The built-in operators `&`, `|`, `~` work on
the promoted operands: a type narrower than `int` is promoted to `int`, any
other type is left alone (`promote`).
-/

namespace nano

/-- An integer type (`char`, `short`, `int`, `long`, their unsigned variants,
the fixed-width types; not `bool`, whose conversions are not modular): its
width in bits and whether it is signed. -/
structure IntegralType where
  width : Nat
  isSigned : Bool
deriving DecidableEq, Repr

/-- Width of `int`. -/
def intWidth : Nat := 32

/-- The type `int`. -/
def intType : IntegralType := ⟨intWidth, true⟩

/-- A bit pattern is an object of type `t` when it fits in `t.width` bits. -/
def IntegralType.Holds (t : IntegralType) (x : Nat) : Prop := x < 2 ^ t.width

instance (t : IntegralType) (x : Nat) : Decidable (t.Holds x) :=
  inferInstanceAs (Decidable (x < 2 ^ t.width))

/-- The mathematical value of the bit pattern `x` read at type `t`
(two's complement for a signed type). -/
def toValue (t : IntegralType) (x : Nat) : Int :=
  if t.isSigned && decide (2 ^ (t.width - 1) ≤ x) then (x : Int) - 2 ^ t.width else (x : Int)

/-- The bit pattern of type `t` that represents `v` modulo `2 ^ t.width`. -/
def ofValue (t : IntegralType) (v : Int) : Nat :=
  (v % 2 ^ t.width).toNat

/-- Integral conversion (`static_cast`, promotion) of the pattern `x` from
type `src` to type `dst`. -/
def convert (src dst : IntegralType) (x : Nat) : Nat :=
  ofValue dst (toValue src x)

/-- Integral promotion: what the operands of `&`, `|`, `~`, `==` become. -/
def promote (t : IntegralType) : IntegralType :=
  if t.width < intWidth then intType else t

/-- Built-in `a & b` on operands of the (promoted) type. -/
def bitAnd (a b : Nat) : Nat := a &&& b

/-- Built-in `a | b` on operands of the (promoted) type. -/
def bitOr (a b : Nat) : Nat := a ||| b

/-- Built-in `~a` on an operand of the (promoted) type `p`. -/
def bitNot (p : IntegralType) (a : Nat) : Nat := 2 ^ p.width - 1 - a

/-- Source, lines 302-307:
`return ((flags & flags_to_verity) != 0);` for `_FlagType` = `t`. -/
def has_flag (t : IntegralType) (flags_to_verity flags : Nat) : Bool :=
  let p := promote t
  bitAnd (convert t p flags) (convert t p flags_to_verity) != 0

/-- Source, lines 309-313:
`flags = value ? static_cast<_FlagType>(flags | flag_to_set)
               : static_cast<_FlagType>(flags & ~flag_to_set);`
The result is the new content of the reference parameter `flags`. -/
def set_flag (t : IntegralType) (flag_to_set : Nat) (value : Bool) (flags : Nat) : Nat :=
  let p := promote t
  if value then convert p t (bitOr (convert t p flags) (convert t p flag_to_set))
  else convert p t (bitAnd (convert t p flags) (bitNot p (convert t p flag_to_set)))

/-! ## Operators generated by `NANO_ENUM_CLASS_FLAGS(enum_class)`

An object of the enumeration is represented by the bit pattern of its
underlying type `t`; `static_cast<type>(lhs)` and `type(lhs)` keep the pattern,
and `static_cast<enum_class>(e)` converts the (promoted) result back to `t`. -/

/-- Source, lines 194-198:
`return static_cast<enum_class>(static_cast<type>(lhs) | static_cast<type>(rhs));` -/
def operator_or (t : IntegralType) (lhs rhs : Nat) : Nat :=
  let p := promote t
  convert p t (bitOr (convert t p lhs) (convert t p rhs))

/-- Source, lines 200-204:
`return static_cast<enum_class>(static_cast<type>(lhs) & static_cast<type>(rhs));` -/
def operator_and (t : IntegralType) (lhs rhs : Nat) : Nat :=
  let p := promote t
  convert p t (bitAnd (convert t p lhs) (convert t p rhs))

/-- Source, lines 213-216: `return static_cast<enum_class>(~type(lhs));` -/
def operator_not (t : IntegralType) (lhs : Nat) : Nat :=
  let p := promote t
  convert p t (bitNot p (convert t p lhs))

/-- Source, lines 218-221: `return std::underlying_type_t<enum_class>(lhs) == value;` -/
def operator_eq (t : IntegralType) (lhs value : Nat) : Bool :=
  let p := promote t
  convert t p lhs == convert t p value

/-- Source, lines 223-226: `return std::underlying_type_t<enum_class>(lhs) != value;` -/
def operator_ne (t : IntegralType) (lhs value : Nat) : Bool :=
  let p := promote t
  convert t p lhs != convert t p value

/-- The objects of the enumeration type that a program holds, by address. -/
abbrev Store := Nat → Nat

/-- Assignment through a reference: `*x = v`. -/
def Store.assign (s : Store) (x : Nat) (v : Nat) : Store :=
  fun y => if y = x then v else s y

/-- Source, lines 206-208:
`enum_class &operator|=(enum_class &lhs, enum_class rhs) { return lhs = (lhs | rhs); }`
`lhs` is the address the reference is bound to, `rhs` the value passed; the
result is the store after the call and the reference returned. -/
def operator_or_assign (t : IntegralType) (s : Store) (lhs : Nat) (rhs : Nat) : Store × Nat :=
  (s.assign lhs (operator_or t (s lhs) rhs), lhs)

/-- Source, lines 209-211:
`enum_class &operator&=(enum_class &lhs, enum_class rhs) { return lhs = (lhs & rhs); }` -/
def operator_and_assign (t : IntegralType) (s : Store) (lhs : Nat) (rhs : Nat) : Store × Nat :=
  (s.assign lhs (operator_and t (s lhs) rhs), lhs)

/-- A store with the object a = 1 at address 0 and b = 2 everywhere else. -/
def exampleStore : Store := fun n => if n = 0 then 1 else 2

/-- Built-in unary minus on an operand of the (promoted) type `p`: modular for
an unsigned type; for a signed type the negation of the least value is not
representable and the behaviour is undefined (`none`). -/
def negate (p : IntegralType) (x : Nat) : Option Nat :=
  if p.isSigned && decide (toValue p x = -(2 : Int) ^ (p.width - 1)) then none
  else some (ofValue p (-toValue p x))

/-- Source, lines 368-377, for an integer type `Tp` = `t`:
`if constexpr (std::is_signed_v<Tp>) { return n >= 0 ? n : -n; } else { return n; }`
Both branches of the conditional have the promoted type; the `return`
converts to `Tp`. -/
def cxpr_abs (t : IntegralType) (n : Nat) : Option Nat :=
  if t.isSigned then
    let p := promote t
    let pn := convert t p n
    if 0 ≤ toValue p pn then some (convert p t pn)
    else (negate p pn).map (convert p t)
  else some n

/-! ## Diagnostic facility (lines 246-299)

`std::cerr` and the trap are observed through a log of events: each `<<` that
reaches the sink appends one write, `NANO_DEBUGTRAP()` appends one trap. The
text a `<<` produces depends on the state of the stream, which the program may
have changed before the call: that state is part of the input. The sink itself
accepts every write. -/

/-- The four expansions of `NANO_DEBUGTRAP_IMPL()` (lines 246-263). -/
inductive Trap where
  | builtin_debugtrap
  | debugbreak
  | raise_sigtrap
  | abort
deriving DecidableEq, Repr

/-- What the preprocessor knows of the toolchain at lines 246-263:
`__has_builtin(__builtin_debugtrap)`, `defined(_WIN32)`, `defined(__clang__)`,
and `defined(unix) || defined(__unix__) || defined(__unix) || defined(__MACH__)`. -/
structure Toolchain where
  has_builtin_debugtrap : Bool
  win32 : Bool
  clang : Bool
  unix : Bool
deriving DecidableEq, Repr

/-- Source, lines 246-263: the `#if` / `#elif` chain that defines
`NANO_DEBUGTRAP_IMPL()`. -/
def NANO_DEBUGTRAP_IMPL (tc : Toolchain) : Trap :=
  if tc.has_builtin_debugtrap then Trap.builtin_debugtrap
  else if tc.win32 then Trap.debugbreak
  else if tc.clang && tc.unix then Trap.raise_sigtrap
  else Trap.abort

/-- One observable action of the diagnostic facility. -/
inductive Event where
  | write (text : String)
  | trap (kind : Trap)
deriving DecidableEq, Repr

/-- The characters the events have sent to `std::cerr`, in order. -/
def sinkOf : List Event → String
  | [] => ""
  | Event.write s :: rest => s ++ sinkOf rest
  | Event.trap _ :: rest => sinkOf rest

/-- The number of trap invocations among the events. -/
def trapsOf : List Event → Nat
  | [] => 0
  | Event.write _ :: rest => trapsOf rest
  | Event.trap _ :: rest => trapsOf rest + 1

/-- The `basefield` of the stream; any setting other than `oct` or `hex`
formats integers in decimal. -/
inductive Basefield where
  | dec
  | oct
  | hex
deriving DecidableEq, Repr

/-- The `adjustfield` of the stream; a cleared field pads like `right`. -/
inductive Adjustfield where
  | left
  | right
  | internal
deriving DecidableEq, Repr

/-- The state of `std::cerr` that decides what a `<<` does: whether the
stream is `good()`; whether an insertion attempted while it is not good throws
`std::ios_base::failure` (it does when the library then sets a state bit that
`exceptions()` includes); the format flags, the field width, the fill
character, and the digit grouping of the locale (the text the `numpunct` facet
makes of a digit string). -/
structure Stream where
  good : Bool
  failedInsertThrows : Bool
  basefield : Basefield
  showbase : Bool
  showpos : Bool
  uppercase : Bool
  adjustfield : Adjustfield
  width : Nat
  fill : Char
  grouping : String → String

/-- The state of `std::cerr` at program start: good, `exceptions()` empty,
decimal, no `showbase`, no `showpos`, width 0, fill `' '`, classic locale. -/
def Stream.initial : Stream :=
  ⟨true, false, Basefield.dec, false, false, false, Adjustfield.right, 0, ' ', fun s => s⟩

/-- The stream writes plain decimal text: it is good, the field width is 0,
integers are formatted in decimal without `showpos`, and the locale does not
group digits. -/
def Stream.Plain (st : Stream) : Prop :=
  st.good = true ∧ st.width = 0 ∧ st.basefield = Basefield.dec ∧ st.showpos = false ∧
    ∀ s, st.grouping s = s

/-- Padding of a formatted field `head ++ body` to the field width with the
fill character: after the field for `left`, between `head` (a sign or a
`0x` prefix) and `body` for `internal`, before the field otherwise. Lengths
count bytes. -/
def padText (st : Stream) (head body : String) : String :=
  let len := (head ++ body).utf8ByteSize
  if st.width ≤ len then head ++ body
  else
    let pad := String.mk (List.replicate (st.width - len) st.fill)
    match st.adjustfield with
    | Adjustfield.left => head ++ body ++ pad
    | Adjustfield.internal => head ++ pad ++ body
    | Adjustfield.right => pad ++ head ++ body

/-- The digits of `u` in the given base, in upper case on request. -/
def digitsOf (base : Nat) (upper : Bool) (u : Nat) : String :=
  String.mk (if upper then (Nat.toDigits base u).map Char.toUpper else Nat.toDigits base u)

/-- The text of `os << s` for a character string `s`. -/
def formatStr (s : String) (st : Stream) : String :=
  padText st "" s

/-- The text of `os << v` for an `int` `v`: decimal with a sign, or the
`unsigned int` value of `v` in octal or hexadecimal, with the base prefix of
`showbase` on a non-zero value; digits grouped by the locale; padded. -/
def formatInt (v : Int) (st : Stream) : String :=
  match st.basefield with
  | Basefield.dec =>
    padText st (if v < 0 then "-" else if st.showpos then "+" else "")
      (st.grouping (digitsOf 10 false v.natAbs))
  | Basefield.oct =>
    padText st ""
      ((if st.showbase && decide ((v % 2 ^ intWidth).toNat ≠ 0) then "0" else "")
        ++ st.grouping (digitsOf 8 false (v % 2 ^ intWidth).toNat))
  | Basefield.hex =>
    padText st
      (if st.showbase && decide ((v % 2 ^ intWidth).toNat ≠ 0)
        then (if st.uppercase then "0X" else "0x") else "")
      (st.grouping (digitsOf 16 st.uppercase (v % 2 ^ intWidth).toNat))

/-- The stream, the log, and whether an exception (`std::ios_base::failure`)
is leaving the function. -/
structure Cerr where
  stream : Stream
  log : List Event
  thrown : Bool

/-- One formatted insertion `os << x`. On a good stream the text goes to the
sink and the field width is reset to 0. On a stream that is not good nothing
is written, and the insertion throws when the stream state says so; once an
exception is thrown the rest of the chain is not executed. -/
def streamInsert (c : Cerr) (text : Stream → String) : Cerr :=
  if c.thrown then c
  else if c.stream.good then
    ⟨{ c.stream with width := 0 }, c.log ++ [Event.write (text c.stream)], false⟩
  else ⟨c.stream, c.log, c.stream.failedInsertThrows⟩

/-- `NANO_DEBUGTRAP();` after an output chain: not reached when the chain
threw. -/
def debugtrap (tc : Toolchain) (c : Cerr) : Cerr :=
  if c.thrown then c
  else ⟨c.stream, c.log ++ [Event.trap (NANO_DEBUGTRAP_IMPL tc)], false⟩

/-- Source, lines 277-289:
`if (NANO_LIKELY(expr)) { return; }`
`std::cerr << "Assert failed:\t" << msg << "\n" << "Expected:\t" << expr_str << "\n"`
`          << "Source:\t\t" << file << ", line " << line << "\n";`
`NANO_DEBUGTRAP();`
`st` and `log` are the stream and the log before the call. -/
def custom_assert (tc : Toolchain) (st : Stream) (log : List Event) (expr_str : String)
    (expr : Bool) (file : String) (line : Int) (msg : String) : Cerr :=
  if expr then ⟨st, log, false⟩
  else
    debugtrap tc
      (streamInsert (streamInsert (streamInsert (streamInsert (streamInsert (streamInsert (streamInsert (streamInsert (streamInsert (streamInsert (streamInsert
        ⟨st, log, false⟩
        (formatStr "Assert failed:\t")) (formatStr msg)) (formatStr "\n"))
        (formatStr "Expected:\t")) (formatStr expr_str)) (formatStr "\n"))
        (formatStr "Source:\t\t")) (formatStr file)) (formatStr ", line "))
        (formatInt line)) (formatStr "\n"))

/-- Source, lines 291-296:
`std::cerr << "Assert failed:\t" << msg << "\n"`
`          << "Source:\t\t" << file << ", line " << line << "\n";`
`NANO_DEBUGTRAP();` -/
def custom_error (tc : Toolchain) (st : Stream) (log : List Event) (file : String)
    (line : Int) (msg : String) : Cerr :=
  debugtrap tc
    (streamInsert (streamInsert (streamInsert (streamInsert (streamInsert (streamInsert (streamInsert (streamInsert
      ⟨st, log, false⟩
      (formatStr "Assert failed:\t")) (formatStr msg)) (formatStr "\n"))
      (formatStr "Source:\t\t")) (formatStr file)) (formatStr ", line "))
      (formatInt line)) (formatStr "\n"))

/-- An argument expression at a call site: its source text (what `#Expr`
yields) and its evaluation, which may change the program state. -/
structure Expr (S : Type) (α : Type) where
  text : String
  eval : S → α × S

/-- Program state at a call site: the state the program owns, the log of the
diagnostic facility, the state of `std::cerr`, and whether an exception is
leaving the call site. -/
structure World (S : Type) where
  user : S
  log : List Event
  cerr : Stream
  thrown : Bool

/-- Build configuration: whether `NDEBUG` is defined, and the toolchain. -/
structure Build where
  ndebug : Bool
  toolchain : Toolchain
deriving DecidableEq, Repr

/-- Source, lines 96 and 269-275: `NANO_ASSERT(Expr, Msg)` at `file`, `line`.
With `NDEBUG` it expands to nothing; otherwise to
`nano::assert_detail::custom_assert(#Expr, (Expr), __FILE__, __LINE__, Msg)`.
The order in which the two argument expressions are evaluated is left to the
compiler: `exprFirst` says which one it took. -/
def NANO_ASSERT {S : Type} (b : Build) (e : Expr S Bool) (m : Expr S String)
    (file : String) (line : Int) (exprFirst : Bool) (w : World S) : World S :=
  if b.ndebug then w
  else if exprFirst then
    let r1 := e.eval w.user
    let r2 := m.eval r1.2
    let c := custom_assert b.toolchain w.cerr w.log e.text r1.1 file line r2.1
    ⟨r2.2, c.log, c.stream, c.thrown⟩
  else
    let r2 := m.eval w.user
    let r1 := e.eval r2.2
    let c := custom_assert b.toolchain w.cerr w.log e.text r1.1 file line r2.1
    ⟨r1.2, c.log, c.stream, c.thrown⟩

/-- Source, lines 99 and 270-276: `NANO_ERROR(Msg)` at `file`, `line`.
With `NDEBUG` it expands to nothing; otherwise to
`nano::assert_detail::custom_error(__FILE__, __LINE__, Msg)`. -/
def NANO_ERROR {S : Type} (b : Build) (m : Expr S String)
    (file : String) (line : Int) (w : World S) : World S :=
  if b.ndebug then w
  else
    let r := m.eval w.user
    let c := custom_error b.toolchain w.cerr w.log file line r.1
    ⟨r.2, c.log, c.stream, c.thrown⟩

/-- A condition with a side effect, `++n == 0`, on a program whose state is
one counter `n`. -/
def incrementExpr : Expr Nat Bool :=
  ⟨"++n == 0", fun n => (decide (n + 1 = 0), n + 1)⟩

/-- A message given as a string literal: evaluating it changes nothing. -/
def literalMsg (text : String) : Expr Nat String :=
  ⟨text, fun n => (text, n)⟩

/-- The stream after `std::cerr << std::hex`. -/
def Stream.afterHex : Stream := { Stream.initial with basefield := Basefield.hex }

/-! ## Traits (lines 322-350)

Templates are instantiated by the compiler; the embedding takes the outcome
of substituting into an operation template as data: the type `Op<Args...>`
names, or a substitution failure. -/

/-- The types the traits mention, and any other type by a number. -/
inductive CType where
  | void
  | nonesuch
  | nullptr_t
  | named (id : Nat)
deriving DecidableEq, Repr

/-- An operation template `template <class...> class Op`: substituting the
arguments yields the type `Op<Args...>` or fails (`none`). -/
abbrev OpTemplate := List CType → Option CType

/-- `std::void_t<X>`: `void` whenever `X` is well-formed. -/
def void_t (x : Option CType) : Option CType :=
  x.map (fun _ => CType.void)

/-- Source, lines 333-340: the primary template derives from `std::false_type`;
the specialization
`detector_value<Default, std::void_t<Op<Args...>>, Op, Args...>` derives from
`std::true_type` and is selected when `std::void_t<Op<Args...>>` is well-formed
and is the `AlwaysVoid` argument. -/
def detector_value (_Default AlwaysVoid : CType) (Op : OpTemplate) (Args : List CType) : Bool :=
  match void_t (Op Args) with
  | some v => decide (v = AlwaysVoid)
  | none => false

/-- `std::conjunction<B...>::value` as the standard defines it:
`conjunction<>` is `true_type`, `conjunction<B1>` is `B1`, and
`conjunction<B1, Bn...>` is `B1` when `B1::value` is false and
`conjunction<Bn...>` otherwise. -/
def conjunction : List Bool → Bool
  | [] => true
  | [b] => b
  | b :: c :: rest => if b then conjunction (c :: rest) else b

/-- Source, lines 342-343:
`using has_members = std::conjunction<detector_value<nonesuch, void, Ops, T>...>;`
(its `::value`). -/
def has_members (T : CType) (Ops : List OpTemplate) : Bool :=
  conjunction (Ops.map (fun Op => detector_value CType.nonesuch CType.void Op [T]))

/-- Source, lines 345-347:
`std::enable_if_t<has_members<T, Ops...>::value, std::nullptr_t>`:
the type `std::nullptr_t`, or a substitution failure. -/
def enable_if_has_members_t (T : CType) (Ops : List OpTemplate) : Option CType :=
  if has_members T Ops then some CType.nullptr_t else none

/-- An operation template that is well-formed for every type. -/
def wellFormedOp : OpTemplate := fun _ => some CType.void

/-- An operation template that is ill-formed for every type. -/
def illFormedOp : OpTemplate := fun _ => none

/-! ## Tolerance comparator (lines 349-366)

Floating-point objects are values of a binary format with `prec` significand
bits: NaN, the two infinities, and the finite values `(-1)^neg * m * 2^e`.
Every arithmetic operation computes the exact result and rounds it to the
format, to nearest with ties to even (the default rounding mode; intermediate
results are not kept in a wider format). -/

/-- A binary floating-point format: the number of significand bits (the
leading bit included) and the largest exponent. -/
structure Format where
  prec : Nat
  emax : Nat
deriving DecidableEq, Repr

/-- The format of `double`. -/
def binary64 : Format := ⟨53, 1023⟩

/-- The format of `float`. -/
def binary32 : Format := ⟨24, 127⟩

/-- Exponent of the last significand bit of the subnormal numbers:
`emin - (prec - 1)` with `emin = 1 - emax`. -/
def Format.qmin (f : Format) : Int := 2 - (f.emax : Int) - (f.prec : Int)

/-- Exponent of the last significand bit of the largest finite numbers:
`emax - (prec - 1)`. -/
def Format.qmax (f : Format) : Int := (f.emax : Int) + 1 - (f.prec : Int)

/-- A floating-point object: NaN, an infinity, or `(-1)^neg * m * 2^e`. -/
inductive FP where
  | nan
  | inf (neg : Bool)
  | fin (neg : Bool) (m : Nat) (e : Int)
deriving DecidableEq, Repr

/-- The objects of the format `f`: a finite one is normal (`prec` significant
bits) or subnormal (least exponent), so each value has one representation. -/
def FP.isValid (f : Format) : FP → Bool
  | FP.nan => true
  | FP.inf _ => true
  | FP.fin _ m e =>
    (decide (2 ^ (f.prec - 1) ≤ m) && decide (m < 2 ^ f.prec) && decide (f.qmin ≤ e)
      && decide (e ≤ f.qmax))
    || (decide (m < 2 ^ (f.prec - 1)) && decide (e = f.qmin))

/-- An exact dyadic number `m * 2^e`. -/
structure Dyadic where
  m : Int
  e : Int
deriving DecidableEq, Repr

/-- Exact difference of two dyadic numbers, on their smaller exponent. -/
def Dyadic.sub (x y : Dyadic) : Dyadic :=
  ⟨x.m * ((2 ^ (x.e - min x.e y.e).toNat : Nat) : Int)
      - y.m * ((2 ^ (y.e - min x.e y.e).toNat : Nat) : Int), min x.e y.e⟩

/-- Exact product of two dyadic numbers. -/
def Dyadic.mul (x y : Dyadic) : Dyadic := ⟨x.m * y.m, x.e + y.e⟩

/-- Exact absolute value. -/
def Dyadic.abs (x : Dyadic) : Dyadic := ⟨(x.m.natAbs : Int), x.e⟩

/-- Exact `x < y`. -/
def Dyadic.lt (x y : Dyadic) : Bool := decide ((Dyadic.sub x y).m < 0)

/-- Exact `x <= y`. -/
def Dyadic.le (x y : Dyadic) : Bool := decide ((Dyadic.sub x y).m ≤ 0)

/-- Exact maximum. -/
def Dyadic.max (x y : Dyadic) : Dyadic := if Dyadic.lt x y then y else x

/-- The exact value of a finite object (0 for the others). -/
def FP.toDyadic : FP → Dyadic
  | FP.fin neg m e => ⟨if neg then -(m : Int) else (m : Int), e⟩
  | _ => ⟨0, 0⟩

/-- Number of significant bits of `a`, when it is at most `fuel`. -/
def bitLengthAux : Nat → Nat → Nat
  | 0, _ => 0
  | fuel + 1, a => if a = 0 then 0 else bitLengthAux fuel (a / 2) + 1

/-- Number of significant bits of `a`. -/
def bitLength (a : Nat) : Nat := bitLengthAux a a

/-- Rounding of the exact value `(-1)^neg * a * 2^e` to the format `f`, to
nearest, ties to even; overflow gives an infinity, underflow a subnormal
number or a zero. -/
def round (f : Format) (neg : Bool) (a : Nat) (e : Int) : FP :=
  if a = 0 then FP.fin neg 0 f.qmin
  else
    let q := max (e + (bitLength a : Int) - (f.prec : Int)) f.qmin
    if q ≤ e then
      if f.qmax < q then FP.inf neg else FP.fin neg (a * 2 ^ (e - q).toNat) q
    else
      let s := (q - e).toNat
      let n := a / 2 ^ s
      let r := a % 2 ^ s
      let half := 2 ^ (s - 1)
      let n1 := if half < r ∨ (r = half ∧ n % 2 = 1) then n + 1 else n
      if n1 = 2 ^ f.prec then
        if f.qmax < q + 1 then FP.inf neg else FP.fin neg (2 ^ (f.prec - 1)) (q + 1)
      else
        if f.qmax < q then FP.inf neg else FP.fin neg n1 q

/-- Floating-point `x - y` in the format `f`. -/
def FP.sub (f : Format) : FP → FP → FP
  | FP.nan, _ => FP.nan
  | _, FP.nan => FP.nan
  | FP.inf s, FP.inf s2 => if s = s2 then FP.nan else FP.inf s
  | FP.inf s, FP.fin _ _ _ => FP.inf s
  | FP.fin _ _ _, FP.inf s => FP.inf (!s)
  | FP.fin s1 m1 e1, FP.fin s2 m2 e2 =>
    let d := Dyadic.sub (FP.fin s1 m1 e1).toDyadic (FP.fin s2 m2 e2).toDyadic
    if d.m = 0 then round f (s1 && !s2 && decide (m1 = 0)) 0 d.e
    else round f (decide (d.m < 0)) d.m.natAbs d.e

/-- Floating-point `x * y` in the format `f`. -/
def FP.mul (f : Format) : FP → FP → FP
  | FP.nan, _ => FP.nan
  | _, FP.nan => FP.nan
  | FP.inf s, FP.inf s2 => FP.inf (xor s s2)
  | FP.inf s, FP.fin s2 m _ => if m = 0 then FP.nan else FP.inf (xor s s2)
  | FP.fin s m _, FP.inf s2 => if m = 0 then FP.nan else FP.inf (xor s s2)
  | FP.fin s1 m1 e1, FP.fin s2 m2 e2 => round f (xor s1 s2) (m1 * m2) (e1 + e2)

/-- `std::abs` on a floating-point object: the sign is cleared. -/
def FP.abs : FP → FP
  | FP.nan => FP.nan
  | FP.inf _ => FP.inf false
  | FP.fin _ m e => FP.fin false m e

/-- Built-in `x < y`: false when an operand is NaN. -/
def FP.lt : FP → FP → Bool
  | FP.nan, _ => false
  | _, FP.nan => false
  | FP.inf s, FP.inf s2 => s && !s2
  | FP.inf s, FP.fin _ _ _ => s
  | FP.fin _ _ _, FP.inf s => !s
  | FP.fin s1 m1 e1, FP.fin s2 m2 e2 =>
    Dyadic.lt (FP.fin s1 m1 e1).toDyadic (FP.fin s2 m2 e2).toDyadic

/-- Built-in `x <= y`: false when an operand is NaN. -/
def FP.le : FP → FP → Bool
  | FP.nan, _ => false
  | _, FP.nan => false
  | FP.inf s, FP.inf s2 => s || !s2
  | FP.inf s, FP.fin _ _ _ => s
  | FP.fin _ _ _, FP.inf s => !s
  | FP.fin s1 m1 e1, FP.fin s2 m2 e2 =>
    Dyadic.le (FP.fin s1 m1 e1).toDyadic (FP.fin s2 m2 e2).toDyadic

/-- `std::max(x, y)`, that is `(x < y) ? y : x`. -/
def FP.max (x y : FP) : FP := if FP.lt x y then y else x

/-- `std::numeric_limits<ftype>::epsilon()`: `2^(1 - prec)`. -/
def epsilon (f : Format) : FP := FP.fin false (2 ^ (f.prec - 1)) (2 - 2 * (f.prec : Int))

/-- An argument of `fcompare`: of an integer type, or of a floating-point type
no wider than the common type. -/
inductive Operand where
  | integer (v : Int)
  | floating (x : FP)
deriving DecidableEq, Repr

/-- `static_cast<ftype>(a)`: an integer is rounded to the format, a
floating-point object keeps its value. -/
def cast (f : Format) : Operand → FP
  | Operand.integer v => round f (decide (v < 0)) v.natAbs 0
  | Operand.floating x => x

/-- Source, lines 355-361:
`const ftype fa = static_cast<ftype>(a); const ftype fb = static_cast<ftype>(b);`
`const ftype t = static_cast<ftype>(std::numeric_limits<ftype>::epsilon());`
`const ftype dt = std::abs(fa - fb);`
`return dt <= t || dt < std::max(std::abs(fa), std::abs(fb)) * t;` -/
def fcompare (f : Format) (a b : Operand) : Bool :=
  let fa := cast f a
  let fb := cast f b
  let t := epsilon f
  let dt := FP.abs (FP.sub f fa fb)
  FP.le dt t || FP.lt dt (FP.mul f (FP.max (FP.abs fa) (FP.abs fb)) t)

/-- Whether an argument of `fcompare` is an object of its type: any integer,
and the floating-point objects of the format. -/
def Operand.isValid (f : Format) : Operand → Bool
  | Operand.integer _ => true
  | Operand.floating x => x.isValid f

/-- Floating-point `-x`. -/
def FP.neg : FP → FP
  | FP.nan => FP.nan
  | FP.inf s => FP.inf (!s)
  | FP.fin s m e => FP.fin (!s) m e

/-- Floating-point `x + y`, computed as `x - (-y)`: the exact result and the
sign of a zero result are the same. -/
def FP.add (f : Format) (x y : FP) : FP := FP.sub f x (FP.neg y)

/-- Floating-point `x / 2`, computed as `x * 0.5`: the exact result is the
same. -/
def FP.div2 (f : Format) (x : FP) : FP :=
  FP.mul f x (FP.fin false (2 ^ (f.prec - 1)) (-(f.prec : Int)))

/-- The `double` 1.0. -/
def double_1_0 : FP := FP.fin false (2 ^ 52) (-52)

/-- The `double` of the literal 1.1: `4953959590107546 * 2^-52`, the nearest
to 1.1 (`1.1 * 2^52 = 4953959590107545.6`). -/
def double_1_1 : FP := FP.fin false 4953959590107546 (-52)

/-! ## Conversions and promoted operands -/

theorem ofValue_natCast (t : IntegralType) (x : Nat) : ofValue t (x : Int) = x % 2 ^ t.width := by
  unfold ofValue
  have h : ((x : Int) % 2 ^ t.width) = ((x % 2 ^ t.width : Nat) : Int) := by push_cast; rfl
  rw [h, Int.toNat_natCast]

theorem ofValue_natCast_sub (t : IntegralType) (x W : Nat) (hW : t.width ≤ W) :
    ofValue t ((x : Int) - 2 ^ W) = x % 2 ^ t.width := by
  have h2 : ((2 : Int) ^ W) = 2 ^ t.width * 2 ^ (W - t.width) := by
    rw [← pow_add]; congr 1; omega
  have h : ((x : Int) - 2 ^ W) % 2 ^ t.width = (x : Int) % 2 ^ t.width := by
    rw [h2, sub_eq_add_neg, ← mul_neg, Int.add_mul_emod_self_left]
  unfold ofValue
  rw [h]
  exact ofValue_natCast t x

theorem width_le_promote (t : IntegralType) : t.width ≤ (promote t).width := by
  unfold promote
  split
  · simp only [intType]; omega
  · exact Nat.le_refl _

/-- Converting back from the promoted type keeps the low `t.width` bits. -/
theorem convert_promote_back (t : IntegralType) (y : Nat) :
    convert (promote t) t y = y % 2 ^ t.width := by
  unfold convert toValue
  split
  · exact ofValue_natCast_sub t y _ (width_le_promote t)
  · exact ofValue_natCast t y

theorem ofValue_sub_pow (p : IntegralType) (x w : Nat) (hw : w ≤ p.width) (hx : x < 2 ^ w) :
    ofValue p ((x : Int) - 2 ^ w) = x + (2 ^ p.width - 2 ^ w) := by
  have hle : 2 ^ w ≤ 2 ^ p.width := Nat.pow_le_pow_right (by decide) hw
  have hcast : ((x : Int) - 2 ^ w) + 2 ^ p.width = ((x + (2 ^ p.width - 2 ^ w) : Nat) : Int) := by
    push_cast [Nat.cast_sub hle]; ring
  have hmod : ((x : Int) - 2 ^ w) % 2 ^ p.width = ((x + (2 ^ p.width - 2 ^ w) : Nat) : Int) := by
    rw [← Int.add_emod_self, hcast]
    apply Int.emod_eq_of_lt
    · exact Int.natCast_nonneg _
    · have : x + (2 ^ p.width - 2 ^ w) < 2 ^ p.width := by omega
      exact_mod_cast this
  unfold ofValue
  rw [hmod, Int.toNat_natCast]

/-- Promotion keeps the pattern of a non-negative value and sign-extends the
pattern of a negative one. -/
theorem convert_promote (t : IntegralType) (x : Nat) (hx : t.Holds x) :
    convert t (promote t) x =
      if t.isSigned && decide (2 ^ (t.width - 1) ≤ x)
      then x + (2 ^ (promote t).width - 2 ^ t.width) else x := by
  have hle : 2 ^ t.width ≤ 2 ^ (promote t).width :=
    Nat.pow_le_pow_right (by decide) (width_le_promote t)
  unfold convert toValue
  split
  · exact ofValue_sub_pow _ x t.width (width_le_promote t) hx
  · rw [ofValue_natCast]
    exact Nat.mod_eq_of_lt (Nat.lt_of_lt_of_le hx hle)

theorem testBit_top (w x : Nat) (hw : 0 < w) (hx : x < 2 ^ w) :
    x.testBit (w - 1) = decide (2 ^ (w - 1) ≤ x) := by
  obtain ⟨k, rfl⟩ : ∃ k, w = k + 1 := ⟨w - 1, by omega⟩
  simp only [Nat.add_sub_cancel]
  by_cases h : 2 ^ k ≤ x
  · simp only [h, decide_True]
    obtain ⟨r, rfl⟩ : ∃ r, x = 2 ^ k + r := ⟨x - 2 ^ k, by omega⟩
    rw [Nat.testBit_two_pow_add_eq]
    have hr : r < 2 ^ k := by rw [pow_succ] at hx; omega
    simp [Nat.testBit_lt_two_pow hr]
  · simp only [h, decide_False]
    exact Nat.testBit_lt_two_pow (by omega)

theorem testBit_add_high (w W x i : Nat) (hw : w ≤ W) (hx : x < 2 ^ w) :
    (x + (2 ^ W - 2 ^ w)).testBit i = if i < w then x.testBit i else decide (i < W) := by
  have h : x + (2 ^ W - 2 ^ w) = 2 ^ w * (2 ^ (W - w) - 1) + x := by
    rw [Nat.mul_sub, ← pow_add, Nat.add_sub_cancel' hw, Nat.mul_one, Nat.add_comm]
  rw [h, Nat.testBit_mul_pow_two_add _ hx, Nat.testBit_two_pow_sub_one]
  split
  · rfl
  · congr 1
    apply propext
    omega

/-- Bits of a promoted operand: the low bits are those of the operand, the
bits above repeat the sign bit of a signed operand and are clear otherwise. -/
theorem testBit_convert_promote (t : IntegralType) (x i : Nat) (hw : 0 < t.width)
    (hx : t.Holds x) :
    (convert t (promote t) x).testBit i =
      if i < t.width then x.testBit i
      else (decide (i < (promote t).width) && (t.isSigned && x.testBit (t.width - 1))) := by
  rw [convert_promote t x hx, testBit_top t.width x hw hx]
  split
  · next h =>
    rw [testBit_add_high t.width _ x i (width_le_promote t) hx, h]
    simp
  · next h =>
    split
    · rfl
    · next hi =>
      have : x.testBit i = false :=
        Nat.testBit_lt_two_pow (Nat.lt_of_lt_of_le hx (Nat.pow_le_pow_right (by decide) (by omega)))
      rw [this]
      simp only [Bool.not_eq_true] at h
      rw [h]
      simp

theorem convert_promote_lt (t : IntegralType) (x : Nat) (hx : t.Holds x) :
    convert t (promote t) x < 2 ^ (promote t).width := by
  have hle : 2 ^ t.width ≤ 2 ^ (promote t).width :=
    Nat.pow_le_pow_right (by decide) (width_le_promote t)
  have hx2 : x < 2 ^ t.width := hx
  rw [convert_promote t x hx]
  split <;> omega

theorem testBit_of_holds_ge (t : IntegralType) (x i : Nat) (hx : t.Holds x) (hi : t.width ≤ i) :
    x.testBit i = false :=
  Nat.testBit_lt_two_pow (Nat.lt_of_lt_of_le hx (Nat.pow_le_pow_right (by decide) hi))

theorem testBit_bitNot (p : IntegralType) (y i : Nat) (hy : y < 2 ^ p.width) :
    (bitNot p y).testBit i = (decide (i < p.width) && !y.testBit i) := by
  unfold bitNot
  rw [Nat.sub_sub, Nat.add_comm 1 y]
  exact Nat.testBit_two_pow_sub_succ hy i

/-- The promoted conjunction vanishes exactly when the conjunction of the
operands does: sign extension adds a common bit only above a common sign bit. -/
theorem and_convert_promote_eq_zero (t : IntegralType) (a b : Nat) (hw : 0 < t.width)
    (ha : t.Holds a) (hb : t.Holds b) :
    bitAnd (convert t (promote t) a) (convert t (promote t) b) = 0 ↔ a &&& b = 0 := by
  unfold bitAnd
  constructor
  · intro h
    apply Nat.eq_of_testBit_eq
    intro i
    have hi := congrArg (fun n => Nat.testBit n i) h
    simp only [Nat.testBit_and, Nat.zero_testBit, testBit_convert_promote t _ i hw ha,
      testBit_convert_promote t _ i hw hb] at hi
    rw [Nat.testBit_and, Nat.zero_testBit]
    by_cases hlt : i < t.width
    · simpa [hlt] using hi
    · rw [testBit_of_holds_ge t a i ha (by omega)]
      rfl
  · intro h
    apply Nat.eq_of_testBit_eq
    intro i
    have hbit : ∀ j, (a.testBit j && b.testBit j) = false := by
      intro j
      have hj := congrArg (fun n => Nat.testBit n j) h
      simpa [Nat.testBit_and] using hj
    rw [Nat.testBit_and, Nat.zero_testBit, testBit_convert_promote t _ i hw ha,
      testBit_convert_promote t _ i hw hb]
    by_cases hlt : i < t.width
    · simpa [hlt] using hbit i
    · have hs := hbit (t.width - 1)
      simp only [hlt, if_false]
      cases h1 : a.testBit (t.width - 1) <;> cases h2 : b.testBit (t.width - 1) <;>
        simp_all

theorem has_flag_eq (t : IntegralType) (x y : Nat) (hw : 0 < t.width)
    (hx : t.Holds x) (hy : t.Holds y) :
    has_flag t x y = true ↔ x &&& y ≠ 0 := by
  unfold has_flag
  simp only [bne_iff_ne, ne_eq]
  rw [and_convert_promote_eq_zero t y x hw hy hx, Nat.land_comm]

theorem and_ne_zero_iff_common_bit (t : IntegralType) (x y : Nat) (hx : t.Holds x) :
    x &&& y ≠ 0 ↔ ∃ i, i < t.width ∧ x.testBit i = true ∧ y.testBit i = true := by
  constructor
  · intro h
    obtain ⟨i, hi⟩ := Nat.ne_zero_implies_bit_true h
    rw [Nat.testBit_and, Bool.and_eq_true] at hi
    refine ⟨i, ?_, hi.1, hi.2⟩
    by_contra hge
    rw [testBit_of_holds_ge t x i hx (by omega)] at hi
    exact Bool.false_ne_true hi.1
  · rintro ⟨i, -, h1, h2⟩ h0
    have := congrArg (fun n => Nat.testBit n i) h0
    simp [Nat.testBit_and, h1, h2] at this

/-- The value `set_flag` stores, read at the width of the flags type. -/
theorem set_flag_eq (t : IntegralType) (mask : Nat) (value : Bool) (flags : Nat)
    (hw : 0 < t.width) (hf : t.Holds flags) (hm : t.Holds mask) :
    set_flag t mask value flags =
      if value then flags ||| mask else flags &&& (2 ^ t.width - 1 - mask) := by
  have hW := width_le_promote t
  unfold set_flag
  cases value
  · simp only [Bool.false_eq_true, if_false]
    rw [convert_promote_back]
    apply Nat.eq_of_testBit_eq
    intro i
    have hnot := testBit_bitNot t mask i hm
    unfold bitNot at hnot
    rw [Nat.testBit_mod_two_pow]
    unfold bitAnd
    rw [Nat.testBit_and, Nat.testBit_and,
      testBit_bitNot _ _ i (convert_promote_lt t mask hm),
      testBit_convert_promote t _ i hw hf, testBit_convert_promote t _ i hw hm, hnot]
    by_cases hlt : i < t.width
    · have : i < (promote t).width := by omega
      simp [hlt, this]
    · simp [hlt]
  · simp only [if_true]
    rw [convert_promote_back]
    apply Nat.eq_of_testBit_eq
    intro i
    rw [Nat.testBit_mod_two_pow]
    unfold bitOr
    rw [Nat.testBit_or, Nat.testBit_or,
      testBit_convert_promote t _ i hw hf, testBit_convert_promote t _ i hw hm]
    by_cases hlt : i < t.width
    · simp [hlt]
    · simp [hlt, testBit_of_holds_ge t flags i hf (by omega),
        testBit_of_holds_ge t mask i hm (by omega)]

theorem set_flag_holds (t : IntegralType) (mask : Nat) (value : Bool) (flags : Nat) :
    t.Holds (set_flag t mask value flags) := by
  unfold set_flag IntegralType.Holds
  split <;> rw [convert_promote_back] <;> exact Nat.mod_lt _ (Nat.two_pow_pos _)

/-! ## Flag accessors and flag-enum operators: the claims -/

/-- Setting and then clearing a mask: bit by bit. -/
theorem testBit_clear_after_set (t : IntegralType) (mask flags i : Nat) (hw : 0 < t.width)
    (hf : t.Holds flags) (hm : t.Holds mask) :
    (set_flag t mask false (set_flag t mask true flags)).testBit i =
      (flags.testBit i && !mask.testBit i) := by
  rw [set_flag_eq t mask false _ hw (set_flag_holds t mask true flags) hm,
    set_flag_eq t mask true flags hw hf hm]
  have hnot := testBit_bitNot t mask i hm
  unfold bitNot at hnot
  simp only [Bool.false_eq_true, if_false, if_true]
  rw [Nat.testBit_and, Nat.testBit_or, hnot]
  by_cases hlt : i < t.width
  · cases flags.testBit i <;> cases mask.testBit i <;> simp [hlt]
  · simp [hlt, testBit_of_holds_ge t flags i hf (by omega)]

theorem and_all_ones (t : IntegralType) (x : Nat) (hx : t.Holds x) :
    x &&& (2 ^ t.width - 1 - 0) = x := by
  rw [Nat.sub_zero, Nat.and_pow_two_sub_one_eq_mod]
  exact Nat.mod_eq_of_lt hx

/-- C1: for flags and mask of one integral flags type, `has_flag(flags, mask)`
is true exactly when `(flags & mask) != 0`, that is when at least one bit of
mask is set in flags. It is an any-bit test and not a subset test:
`has_flag(1, 3)` is true although bit 1 of the mask 3 is clear in 1. With
X = 1 and Y = 2, `has_flag(X|Y, X)` is true and `has_flag(X, Y)` is false. -/
theorem C1_has_flag_any_bit (t : IntegralType) (flags mask : Nat) (hw : 0 < t.width)
    (hf : t.Holds flags) (hm : t.Holds mask) :
    (has_flag t flags mask = true ↔ flags &&& mask ≠ 0) ∧
    (has_flag t flags mask = true ↔
      ∃ i, i < t.width ∧ flags.testBit i = true ∧ mask.testBit i = true) ∧
    (t.Holds 3 →
      has_flag t (1 ||| 2) 1 = true ∧ has_flag t 1 2 = false ∧
      (has_flag t 1 3 = true ∧ 1 &&& 3 ≠ 3)) := by
  refine ⟨has_flag_eq t flags mask hw hf hm, ?_, ?_⟩
  · rw [has_flag_eq t flags mask hw hf hm]
    exact and_ne_zero_iff_common_bit t flags mask hf
  · intro h3
    have h3' : 3 < 2 ^ t.width := h3
    have h1 : t.Holds 1 := Nat.lt_trans (by decide) h3'
    have h2 : t.Holds 2 := Nat.lt_trans (by decide) h3'
    have h12 : t.Holds (1 ||| 2) := by
      have e : (1 ||| 2 : Nat) = 3 := by decide
      rw [e]
      exact h3
    refine ⟨?_, ?_, ?_, by decide⟩
    · exact (has_flag_eq t (1 ||| 2) 1 hw h12 h1).2 (by decide)
    · have := has_flag_eq t 1 2 hw h1 h2
      cases hh : has_flag t 1 2
      · rfl
      · exact absurd rfl (this.1 hh)
    · exact (has_flag_eq t 1 3 hw h1 h3).2 (by decide)

/-- Witness of C1 at `int`, flags = 6, mask = 3 (common bit 1). -/
theorem C1_has_flag_any_bit_witness :
    (0 < intType.width ∧ intType.Holds 6 ∧ intType.Holds 3) ∧
    (has_flag intType 6 3 = true ↔ 6 &&& 3 ≠ 0) ∧
    (has_flag intType 6 3 = true ↔
      ∃ i, i < intType.width ∧ Nat.testBit 6 i = true ∧ Nat.testBit 3 i = true) ∧
    (intType.Holds 3 →
      has_flag intType (1 ||| 2) 1 = true ∧ has_flag intType 1 2 = false ∧
      (has_flag intType 1 3 = true ∧ 1 &&& 3 ≠ 3)) :=
  ⟨⟨by decide, by decide, by decide⟩,
    C1_has_flag_any_bit intType 6 3 (by decide) (by decide) (by decide)⟩

/-- C2: for every mask, boolean value and starting flags of an integral type of
width w, `set_flag(mask, value, flags)` leaves in flags the value
`flags | mask` when value is true and `flags & ~mask` when value is false, the
complement being taken at width w; the result is again an object of the flags
type, so promotion to `int` and the cast back change nothing. -/
theorem C2_set_flag_value (t : IntegralType) (mask : Nat) (value : Bool) (flags : Nat)
    (hw : 0 < t.width) (hf : t.Holds flags) (hm : t.Holds mask) :
    set_flag t mask value flags = (if value then flags ||| mask else flags &&& bitNot t mask) ∧
    t.Holds (set_flag t mask value flags) :=
  ⟨set_flag_eq t mask value flags hw hf hm, set_flag_holds t mask value flags⟩

/-- Witness of C2 on a signed 8-bit type: clearing the sign bit of 0x81. -/
theorem C2_set_flag_value_witness :
    (0 < (IntegralType.mk 8 true).width ∧ (IntegralType.mk 8 true).Holds 129 ∧
      (IntegralType.mk 8 true).Holds 128) ∧
    (set_flag ⟨8, true⟩ 128 false 129 =
        (if false then 129 ||| 128 else 129 &&& bitNot ⟨8, true⟩ 128) ∧
      (IntegralType.mk 8 true).Holds (set_flag ⟨8, true⟩ 128 false 129)) :=
  ⟨⟨by decide, by decide, by decide⟩,
    C2_set_flag_value ⟨8, true⟩ 128 false 129 (by decide) (by decide) (by decide)⟩

theorem holds_two_pow (t : IntegralType) (k : Nat) (hk : k < t.width) : t.Holds (2 ^ k) :=
  Nat.pow_lt_pow_right (by decide) hk

/-- C3 (as stated) fails: on an `int` with bit 0 set, setting and then clearing
the single-bit mask 1 ends with 0, not with the starting value 1; bit 0 has
lost its original value. -/
theorem C3_set_then_clear_counterexample :
    intType.Holds 1 ∧ (1 : Nat) = 2 ^ 0 ∧
    set_flag intType 1 false (set_flag intType 1 true 1) = 0 ∧
    set_flag intType 1 false (set_flag intType 1 true 1) ≠ 1 ∧
    (set_flag intType 1 false (set_flag intType 1 true 1)).testBit 0 ≠ Nat.testBit 1 0 := by
  decide

/-- C3 (amended): for every starting flags and every single-bit mask X = 2^k,
`set_flag(X, true, flags)` followed by `set_flag(X, false, flags)` leaves
flags equal to `flags & ~X`: bit X is clear, every other bit is unchanged, and
flags equals its starting value exactly when bit X was clear at the start. -/
theorem C3_set_then_clear (t : IntegralType) (flags k : Nat) (hw : 0 < t.width)
    (hf : t.Holds flags) (hk : k < t.width) :
    set_flag t (2 ^ k) false (set_flag t (2 ^ k) true flags) = flags &&& bitNot t (2 ^ k) ∧
    (set_flag t (2 ^ k) false (set_flag t (2 ^ k) true flags)).testBit k = false ∧
    (∀ i, i ≠ k →
      (set_flag t (2 ^ k) false (set_flag t (2 ^ k) true flags)).testBit i = flags.testBit i) ∧
    (set_flag t (2 ^ k) false (set_flag t (2 ^ k) true flags) = flags ↔
      flags.testBit k = false) := by
  have hm := holds_two_pow t k hk
  have hbit := fun i => testBit_clear_after_set t (2 ^ k) flags i hw hf hm
  have hk' : (set_flag t (2 ^ k) false (set_flag t (2 ^ k) true flags)).testBit k = false := by
    rw [hbit k, Nat.testBit_two_pow_self]
    simp
  have hother : ∀ i, i ≠ k →
      (set_flag t (2 ^ k) false (set_flag t (2 ^ k) true flags)).testBit i
        = flags.testBit i := by
    intro i hi
    rw [hbit i, Nat.testBit_two_pow_of_ne (Ne.symm hi)]
    simp
  refine ⟨?_, hk', hother, ?_⟩
  · apply Nat.eq_of_testBit_eq
    intro i
    rw [hbit i, Nat.testBit_and, testBit_bitNot t _ i hm]
    by_cases hlt : i < t.width
    · simp [hlt]
    · simp [hlt, testBit_of_holds_ge t flags i hf (by omega)]
  · constructor
    · intro h
      rw [← h]
      exact hk'
    · intro h
      apply Nat.eq_of_testBit_eq
      intro i
      by_cases hi : i = k
      · rw [hi, hk', h]
      · exact hother i hi

/-- Witness of C3 (amended) on `int`: flags = 5, X = 2^2. -/
theorem C3_set_then_clear_witness :
    (0 < intType.width ∧ intType.Holds 5 ∧ 2 < intType.width) ∧
    set_flag intType (2 ^ 2) false (set_flag intType (2 ^ 2) true 5) = 5 &&& bitNot intType (2 ^ 2) ∧
    (set_flag intType (2 ^ 2) false (set_flag intType (2 ^ 2) true 5)).testBit 2 = false ∧
    (∀ i, i ≠ 2 →
      (set_flag intType (2 ^ 2) false (set_flag intType (2 ^ 2) true 5)).testBit i
        = Nat.testBit 5 i) ∧
    (set_flag intType (2 ^ 2) false (set_flag intType (2 ^ 2) true 5) = 5 ↔
      Nat.testBit 5 2 = false) :=
  ⟨⟨by decide, by decide, by decide⟩,
    C3_set_then_clear intType 5 2 (by decide) (by decide) (by decide)⟩

/-- C4: with mask = 0, `has_flag(flags, 0)` is false for every flags (in either
argument position), and `set_flag(0, value, flags)` leaves flags unchanged for
both values of `value`. -/
theorem C4_zero_mask (t : IntegralType) (flags : Nat) (value : Bool) (hw : 0 < t.width)
    (hf : t.Holds flags) :
    has_flag t flags 0 = false ∧ has_flag t 0 flags = false ∧
    set_flag t 0 value flags = flags := by
  have h0 : t.Holds 0 := Nat.two_pow_pos _
  refine ⟨?_, ?_, ?_⟩
  · cases hh : has_flag t flags 0
    · rfl
    · exact absurd (Nat.and_zero flags) ((has_flag_eq t flags 0 hw hf h0).1 hh)
  · cases hh : has_flag t 0 flags
    · rfl
    · exact absurd (Nat.zero_and flags) ((has_flag_eq t 0 flags hw h0 hf).1 hh)
  · rw [set_flag_eq t 0 value flags hw hf h0]
    cases value
    · simp only [Bool.false_eq_true, if_false]
      exact and_all_ones t flags hf
    · simp only [if_true]
      exact Nat.or_zero flags

/-- Witness of C4 on an unsigned 16-bit type with every bit of flags set. -/
theorem C4_zero_mask_witness :
    (0 < (IntegralType.mk 16 false).width ∧ (IntegralType.mk 16 false).Holds 65535) ∧
    has_flag ⟨16, false⟩ 65535 0 = false ∧ has_flag ⟨16, false⟩ 0 65535 = false ∧
    set_flag ⟨16, false⟩ 0 false 65535 = 65535 :=
  ⟨⟨by decide, by decide⟩, C4_zero_mask ⟨16, false⟩ 65535 false (by decide) (by decide)⟩

/-- Promotion followed by the conversion back is the identity on objects of `t`. -/
theorem convert_roundtrip (t : IntegralType) (x : Nat) (hw : 0 < t.width) (hx : t.Holds x) :
    convert (promote t) t (convert t (promote t) x) = x := by
  rw [convert_promote_back]
  apply Nat.eq_of_testBit_eq
  intro i
  rw [Nat.testBit_mod_two_pow, testBit_convert_promote t x i hw hx]
  by_cases hlt : i < t.width
  · simp [hlt]
  · simp [hlt, testBit_of_holds_ge t x i hx (by omega)]

theorem convert_promote_inj (t : IntegralType) (x y : Nat) (hw : 0 < t.width)
    (hx : t.Holds x) (hy : t.Holds y)
    (h : convert t (promote t) x = convert t (promote t) y) : x = y := by
  rw [← convert_roundtrip t x hw hx, ← convert_roundtrip t y hw hy, h]

theorem operator_or_eq (t : IntegralType) (a b : Nat) (hw : 0 < t.width)
    (ha : t.Holds a) (hb : t.Holds b) : operator_or t a b = a ||| b := by
  have h := set_flag_eq t b true a hw ha hb
  simpa [set_flag, operator_or] using h

theorem operator_and_eq (t : IntegralType) (a b : Nat) (hw : 0 < t.width)
    (ha : t.Holds a) (hb : t.Holds b) : operator_and t a b = a &&& b := by
  unfold operator_and
  rw [convert_promote_back]
  apply Nat.eq_of_testBit_eq
  intro i
  rw [Nat.testBit_mod_two_pow]
  unfold bitAnd
  rw [Nat.testBit_and, Nat.testBit_and,
    testBit_convert_promote t _ i hw ha, testBit_convert_promote t _ i hw hb]
  by_cases hlt : i < t.width
  · simp [hlt]
  · simp [hlt, testBit_of_holds_ge t a i ha (by omega)]

theorem testBit_operator_not (t : IntegralType) (a i : Nat) (hw : 0 < t.width)
    (ha : t.Holds a) :
    (operator_not t a).testBit i = (decide (i < t.width) && !a.testBit i) := by
  unfold operator_not
  rw [convert_promote_back, Nat.testBit_mod_two_pow,
    testBit_bitNot _ _ i (convert_promote_lt t a ha), testBit_convert_promote t a i hw ha]
  have hW := width_le_promote t
  by_cases hlt : i < t.width
  · have : i < (promote t).width := by omega
    simp [hlt, this]
  · simp [hlt]

theorem operator_not_eq (t : IntegralType) (a : Nat) (hw : 0 < t.width) (ha : t.Holds a) :
    operator_not t a = 2 ^ t.width - 1 - a := by
  apply Nat.eq_of_testBit_eq
  intro i
  have h := testBit_bitNot t a i ha
  unfold bitNot at h
  rw [testBit_operator_not t a i hw ha, h]

theorem operator_not_holds (t : IntegralType) (a : Nat) : t.Holds (operator_not t a) := by
  unfold operator_not IntegralType.Holds
  rw [convert_promote_back]
  exact Nat.mod_lt _ (Nat.two_pow_pos _)

theorem operator_eq_iff (t : IntegralType) (e v : Nat) (hw : 0 < t.width)
    (he : t.Holds e) (hv : t.Holds v) : operator_eq t e v = true ↔ e = v := by
  unfold operator_eq
  simp only [beq_iff_eq]
  constructor
  · exact convert_promote_inj t e v hw he hv
  · intro h
    rw [h]

theorem assign_same (s : Store) (x v : Nat) : s.assign x v x = v := by
  simp [Store.assign]

theorem assign_other (s : Store) (x v y : Nat) (h : y ≠ x) : s.assign x v y = s y := by
  simp [Store.assign, h]

/-- C5: for two values a, b of an enumeration given its operators by
`NANO_ENUM_CLASS_FLAGS`, the underlying value of `a | b` is the bitwise OR of
the underlying values and that of `a & b` is their bitwise AND: a bit of `a | b`
is set iff it is set in a or in b, a bit of `a & b` iff it is set in both. -/
theorem C5_enum_or_and (t : IntegralType) (a b : Nat) (hw : 0 < t.width)
    (ha : t.Holds a) (hb : t.Holds b) :
    operator_or t a b = a ||| b ∧ operator_and t a b = a &&& b ∧
    (∀ i, (operator_or t a b).testBit i = (a.testBit i || b.testBit i)) ∧
    (∀ i, (operator_and t a b).testBit i = (a.testBit i && b.testBit i)) := by
  have hor := operator_or_eq t a b hw ha hb
  have hand := operator_and_eq t a b hw ha hb
  refine ⟨hor, hand, ?_, ?_⟩
  · intro i
    rw [hor, Nat.testBit_or]
  · intro i
    rw [hand, Nat.testBit_and]

/-- Witness of C5 on the 2-bit test enumeration (X = 1, Y = 2, underlying `int`). -/
theorem C5_enum_or_and_witness :
    (0 < intType.width ∧ intType.Holds 1 ∧ intType.Holds 2) ∧
    operator_or intType 1 2 = 1 ||| 2 ∧ operator_and intType 1 2 = 1 &&& 2 ∧
    (∀ i, (operator_or intType 1 2).testBit i = (Nat.testBit 1 i || Nat.testBit 2 i)) ∧
    (∀ i, (operator_and intType 1 2).testBit i = (Nat.testBit 1 i && Nat.testBit 2 i)) :=
  ⟨⟨by decide, by decide, by decide⟩,
    C5_enum_or_and intType 1 2 (by decide) (by decide) (by decide)⟩

/-- C6: for a value a of an enumeration given its operators by
`NANO_ENUM_CLASS_FLAGS`, with an underlying type of width w, `~a` has each of
the w bits flipped (whether or not an enumerator declares the bit), no bit at
or above position w is set after the cast back, and the underlying value is the
w-bit complement of a; this holds for every width, narrower than `int` or not. -/
theorem C6_enum_not (t : IntegralType) (a : Nat) (hw : 0 < t.width) (ha : t.Holds a) :
    (∀ i, i < t.width → (operator_not t a).testBit i = !a.testBit i) ∧
    (∀ i, t.width ≤ i → (operator_not t a).testBit i = false) ∧
    t.Holds (operator_not t a) ∧
    operator_not t a = bitNot t a := by
  refine ⟨?_, ?_, operator_not_holds t a, operator_not_eq t a hw ha⟩
  · intro i hi
    rw [testBit_operator_not t a i hw ha]
    simp [hi]
  · intro i hi
    rw [testBit_operator_not t a i hw ha]
    have : ¬ i < t.width := by omega
    simp [this]

/-- Witness of C6 on an unsigned 8-bit underlying type: `~1` is 254. -/
theorem C6_enum_not_witness :
    (0 < (IntegralType.mk 8 false).width ∧ (IntegralType.mk 8 false).Holds 1) ∧
    (∀ i, i < (IntegralType.mk 8 false).width →
      (operator_not ⟨8, false⟩ 1).testBit i = !Nat.testBit 1 i) ∧
    (∀ i, (IntegralType.mk 8 false).width ≤ i → (operator_not ⟨8, false⟩ 1).testBit i = false) ∧
    (IntegralType.mk 8 false).Holds (operator_not ⟨8, false⟩ 1) ∧
    operator_not ⟨8, false⟩ 1 = bitNot ⟨8, false⟩ 1 :=
  ⟨⟨by decide, by decide⟩, C6_enum_not ⟨8, false⟩ 1 (by decide) (by decide)⟩

/-- C7: for two objects a, b of an enumeration given its operators by
`NANO_ENUM_CLASS_FLAGS`, after `a |= b` the object a holds `a_old | b` (the
bitwise OR of the two underlying values), after `a &= b` it holds `a_old & b`;
the right operand is unchanged (also when it is a itself); the operator yields
a reference to a, so the value it yields is the updated a. -/
theorem C7_compound_assign (t : IntegralType) (s : Store) (a b : Nat) (hw : 0 < t.width)
    (ha : t.Holds (s a)) (hb : t.Holds (s b)) :
    ((operator_or_assign t s a (s b)).1 a = operator_or t (s a) (s b) ∧
      (operator_or_assign t s a (s b)).1 a = s a ||| s b ∧
      (operator_or_assign t s a (s b)).1 b = s b ∧
      (operator_or_assign t s a (s b)).2 = a ∧
      (operator_or_assign t s a (s b)).1 (operator_or_assign t s a (s b)).2
        = operator_or t (s a) (s b)) ∧
    ((operator_and_assign t s a (s b)).1 a = operator_and t (s a) (s b) ∧
      (operator_and_assign t s a (s b)).1 a = s a &&& s b ∧
      (operator_and_assign t s a (s b)).1 b = s b ∧
      (operator_and_assign t s a (s b)).2 = a ∧
      (operator_and_assign t s a (s b)).1 (operator_and_assign t s a (s b)).2
        = operator_and t (s a) (s b)) := by
  unfold operator_or_assign operator_and_assign
  refine ⟨⟨assign_same _ _ _, ?_, ?_, rfl, assign_same _ _ _⟩,
    ⟨assign_same _ _ _, ?_, ?_, rfl, assign_same _ _ _⟩⟩
  · simp only [assign_same]
    exact operator_or_eq t _ _ hw ha hb
  · by_cases hab : b = a
    · subst hab
      simp only [assign_same]
      rw [operator_or_eq t _ _ hw ha ha, Nat.or_self]
    · exact assign_other _ _ _ _ hab
  · simp only [assign_same]
    exact operator_and_eq t _ _ hw ha hb
  · by_cases hab : b = a
    · subst hab
      simp only [assign_same]
      rw [operator_and_eq t _ _ hw ha ha, Nat.and_self]
    · exact assign_other _ _ _ _ hab

/-- Witness of C7 on `exampleStore`: a at address 0 holds 1, b at address 1
holds 2, underlying type `int`. -/
theorem C7_compound_assign_witness :
    (0 < intType.width ∧ intType.Holds (exampleStore 0) ∧ intType.Holds (exampleStore 1)) ∧
    ((operator_or_assign intType exampleStore 0 (exampleStore 1)).1 0
        = operator_or intType (exampleStore 0) (exampleStore 1) ∧
      (operator_or_assign intType exampleStore 0 (exampleStore 1)).1 0
        = exampleStore 0 ||| exampleStore 1 ∧
      (operator_or_assign intType exampleStore 0 (exampleStore 1)).1 1 = exampleStore 1 ∧
      (operator_or_assign intType exampleStore 0 (exampleStore 1)).2 = 0 ∧
      (operator_or_assign intType exampleStore 0 (exampleStore 1)).1
          (operator_or_assign intType exampleStore 0 (exampleStore 1)).2
        = operator_or intType (exampleStore 0) (exampleStore 1)) ∧
    ((operator_and_assign intType exampleStore 0 (exampleStore 1)).1 0
        = operator_and intType (exampleStore 0) (exampleStore 1) ∧
      (operator_and_assign intType exampleStore 0 (exampleStore 1)).1 0
        = exampleStore 0 &&& exampleStore 1 ∧
      (operator_and_assign intType exampleStore 0 (exampleStore 1)).1 1 = exampleStore 1 ∧
      (operator_and_assign intType exampleStore 0 (exampleStore 1)).2 = 0 ∧
      (operator_and_assign intType exampleStore 0 (exampleStore 1)).1
          (operator_and_assign intType exampleStore 0 (exampleStore 1)).2
        = operator_and intType (exampleStore 0) (exampleStore 1)) :=
  ⟨⟨by decide, by decide, by decide⟩,
    C7_compound_assign intType exampleStore 0 1 (by decide) (by decide) (by decide)⟩

/-- C8: for a value e of an enumeration given its operators by
`NANO_ENUM_CLASS_FLAGS` and a raw value v of its underlying type, `e == v` is
true iff the underlying representation of e is exactly v, and `e != v` is the
negation of `e == v`; e is never reduced to a truth value: an e whose
representation is not 1 is not equal to 1, non-zero or not. -/
theorem C8_enum_eq_raw (t : IntegralType) (e v : Nat) (hw : 0 < t.width)
    (he : t.Holds e) (hv : t.Holds v) :
    (operator_eq t e v = true ↔ e = v) ∧
    operator_ne t e v = !operator_eq t e v ∧
    (e ≠ 1 → operator_eq t e 1 = false) := by
  refine ⟨operator_eq_iff t e v hw he hv, rfl, ?_⟩
  intro h1
  have hone : t.Holds 1 := Nat.one_lt_two_pow (Nat.pos_iff_ne_zero.1 hw)
  cases hh : operator_eq t e 1
  · rfl
  · exact absurd ((operator_eq_iff t e 1 hw he hone).1 hh) h1

/-- Witness of C8 on a signed 8-bit underlying type: e = 0x82 against v = 1. -/
theorem C8_enum_eq_raw_witness :
    (0 < (IntegralType.mk 8 true).width ∧ (IntegralType.mk 8 true).Holds 130 ∧
      (IntegralType.mk 8 true).Holds 1) ∧
    (operator_eq ⟨8, true⟩ 130 1 = true ↔ 130 = 1) ∧
    operator_ne ⟨8, true⟩ 130 1 = !operator_eq ⟨8, true⟩ 130 1 ∧
    (130 ≠ 1 → operator_eq ⟨8, true⟩ 130 1 = false) :=
  ⟨⟨by decide, by decide, by decide⟩,
    C8_enum_eq_raw ⟨8, true⟩ 130 1 (by decide) (by decide) (by decide)⟩

theorem has_flag_eq_false (t : IntegralType) (x y : Nat) (hw : 0 < t.width)
    (hx : t.Holds x) (hy : t.Holds y) (h : x &&& y = 0) : has_flag t x y = false := by
  cases hh : has_flag t x y
  · rfl
  · exact absurd h ((has_flag_eq t x y hw hx hy).1 hh)

/-- Bits of the value `set_flag` stores. -/
theorem testBit_set_flag (t : IntegralType) (mask : Nat) (value : Bool) (flags i : Nat)
    (hw : 0 < t.width) (hf : t.Holds flags) (hm : t.Holds mask) :
    (set_flag t mask value flags).testBit i =
      if mask.testBit i then value else flags.testBit i := by
  rw [set_flag_eq t mask value flags hw hf hm]
  have hnot := testBit_bitNot t mask i hm
  unfold bitNot at hnot
  cases value
  · simp only [Bool.false_eq_true, if_false]
    rw [Nat.testBit_and, hnot]
    by_cases hlt : i < t.width
    · cases mask.testBit i <;> simp [hlt]
    · simp [hlt, testBit_of_holds_ge t flags i hf (by omega),
        testBit_of_holds_ge t mask i hm (by omega)]
  · simp only [if_true]
    rw [Nat.testBit_or]
    cases mask.testBit i <;> simp

/-- C17: one call `set_flag(mask, value, flags)` changes only bits selected by
mask: a bit of flags that is clear in mask keeps its previous value, a bit that
is set in mask ends equal to value. -/
theorem C17_set_flag_frame (t : IntegralType) (mask : Nat) (value : Bool) (flags : Nat)
    (hw : 0 < t.width) (hf : t.Holds flags) (hm : t.Holds mask) :
    (∀ i, mask.testBit i = false →
      (set_flag t mask value flags).testBit i = flags.testBit i) ∧
    (∀ i, mask.testBit i = true → (set_flag t mask value flags).testBit i = value) := by
  constructor
  · intro i hi
    rw [testBit_set_flag t mask value flags i hw hf hm, hi]
    rfl
  · intro i hi
    rw [testBit_set_flag t mask value flags i hw hf hm, hi]
    rfl

/-- Witness of C17 on a signed 8-bit type: clearing the mask 0x90 in 0xF1. -/
theorem C17_set_flag_frame_witness :
    (0 < (IntegralType.mk 8 true).width ∧ (IntegralType.mk 8 true).Holds 241 ∧
      (IntegralType.mk 8 true).Holds 144) ∧
    (∀ i, Nat.testBit 144 i = false →
      (set_flag ⟨8, true⟩ 144 false 241).testBit i = Nat.testBit 241 i) ∧
    (∀ i, Nat.testBit 144 i = true → (set_flag ⟨8, true⟩ 144 false 241).testBit i = false) :=
  ⟨⟨by decide, by decide, by decide⟩,
    C17_set_flag_frame ⟨8, true⟩ 144 false 241 (by decide) (by decide) (by decide)⟩

/-- C18: `set_flag` and `has_flag` agree: after `set_flag(mask, true, flags)`
with a non-zero mask, `has_flag` on the new flags and mask is true; after
`set_flag(mask, false, flags)`, with any mask, it is false. -/
theorem C18_set_then_has (t : IntegralType) (mask flags : Nat)
    (hw : 0 < t.width) (hf : t.Holds flags) (hm : t.Holds mask) :
    (mask ≠ 0 → has_flag t (set_flag t mask true flags) mask = true) ∧
    has_flag t (set_flag t mask false flags) mask = false := by
  constructor
  · intro h0
    rw [has_flag_eq t _ mask hw (set_flag_holds t mask true flags) hm]
    intro h
    apply h0
    apply Nat.eq_of_testBit_eq
    intro i
    have hi := congrArg (fun n => Nat.testBit n i) h
    simp only [Nat.testBit_and, Nat.zero_testBit,
      testBit_set_flag t mask true flags i hw hf hm] at hi
    rw [Nat.zero_testBit]
    cases hb : mask.testBit i
    · rfl
    · simp [hb] at hi
  · apply has_flag_eq_false t _ mask hw (set_flag_holds t mask false flags) hm
    apply Nat.eq_of_testBit_eq
    intro i
    rw [Nat.testBit_and, Nat.zero_testBit, testBit_set_flag t mask false flags i hw hf hm]
    cases hb : mask.testBit i <;> simp

/-- Witness of C18 on `int`: mask 6 on flags 9. -/
theorem C18_set_then_has_witness :
    (0 < intType.width ∧ intType.Holds 9 ∧ intType.Holds 6) ∧
    ((6 : Nat) ≠ 0 → has_flag intType (set_flag intType 6 true 9) 6 = true) ∧
    has_flag intType (set_flag intType 6 false 9) 6 = false :=
  ⟨⟨by decide, by decide, by decide⟩,
    C18_set_then_has intType 6 9 (by decide) (by decide) (by decide)⟩

/-- C19: `has_flag` does not depend on the order of its two arguments:
`has_flag(x, y) == has_flag(y, x)` for every x and y of the flags type, so the
parameter order of the code (`flags_to_verity` first) and the documented order
(flags first, mask second) give the same result. -/
theorem C19_has_flag_comm (t : IntegralType) (x y : Nat) :
    has_flag t x y = has_flag t y x := by
  unfold has_flag bitAnd
  simp only [Nat.land_comm (convert t (promote t) y)]

theorem ofValue_holds (t : IntegralType) (v : Int) : t.Holds (ofValue t v) := by
  unfold ofValue IntegralType.Holds
  have hpos : (0 : Int) < 2 ^ t.width := by positivity
  have h1 := Int.emod_nonneg v (ne_of_gt hpos)
  have h2 := Int.emod_lt_of_pos v hpos
  have h3 : ((v % 2 ^ t.width).toNat : Int) = v % 2 ^ t.width := Int.toNat_of_nonneg h1
  have h4 : (((v % 2 ^ t.width).toNat : Nat) : Int) < ((2 ^ t.width : Nat) : Int) := by
    rw [h3]; push_cast; exact h2
  exact_mod_cast h4

theorem two_pow_pred (w : Nat) (hw : 0 < w) : 2 ^ w = 2 * 2 ^ (w - 1) := by
  obtain ⟨k, rfl⟩ : ∃ k, w = k + 1 := ⟨w - 1, by omega⟩
  simp only [Nat.add_sub_cancel]
  rw [pow_succ, Nat.mul_comm]

/-- A signed type reads its patterns in the two's complement range. -/
theorem toValue_range_signed (t : IntegralType) (n : Nat) (hs : t.isSigned = true)
    (hw : 0 < t.width) (hn : t.Holds n) :
    -(2 : Int) ^ (t.width - 1) ≤ toValue t n ∧ toValue t n < (2 : Int) ^ (t.width - 1) := by
  have hn2 : n < 2 ^ t.width := hn
  have hN := two_pow_pred t.width hw
  have hI : (2 : Int) ^ t.width = 2 * 2 ^ (t.width - 1) := by exact_mod_cast hN
  have hP : ((2 ^ (t.width - 1) : Nat) : Int) = (2 : Int) ^ (t.width - 1) := by push_cast; rfl
  unfold toValue
  rw [hs]
  by_cases h : 2 ^ (t.width - 1) ≤ n
  · simp only [h, decide_True, Bool.and_self, if_true]
    have h' : ((2 ^ (t.width - 1) : Nat) : Int) ≤ (n : Int) := by exact_mod_cast h
    have h'' : (n : Int) < ((2 ^ t.width : Nat) : Int) := by exact_mod_cast hn2
    push_cast at h' h''
    omega
  · simp only [h, decide_False, Bool.and_false, Bool.false_eq_true, if_false]
    have h' : (n : Int) < ((2 ^ (t.width - 1) : Nat) : Int) := by
      have : n < 2 ^ (t.width - 1) := by omega
      exact_mod_cast this
    push_cast at h'
    have h0 : (0 : Int) ≤ (n : Int) := Int.natCast_nonneg n
    omega

/-- A value in the range of a signed type is read back from its pattern. -/
theorem toValue_ofValue_signed (p : IntegralType) (v : Int) (hs : p.isSigned = true)
    (hw : 0 < p.width)
    (hlo : -(2 : Int) ^ (p.width - 1) ≤ v) (hhi : v < (2 : Int) ^ (p.width - 1)) :
    toValue p (ofValue p v) = v := by
  have hN := two_pow_pred p.width hw
  have hI : (2 : Int) ^ p.width = 2 * 2 ^ (p.width - 1) := by exact_mod_cast hN
  have hP : ((2 ^ (p.width - 1) : Nat) : Int) = (2 : Int) ^ (p.width - 1) := by push_cast; rfl
  have hPpos : (0 : Int) < 2 ^ (p.width - 1) := by positivity
  unfold toValue ofValue
  rw [hs]
  by_cases hv : 0 ≤ v
  · have hmod : v % 2 ^ p.width = v := Int.emod_eq_of_lt hv (by omega)
    rw [hmod]
    have hcast : ((v.toNat : Nat) : Int) = v := Int.toNat_of_nonneg hv
    have hlt : ¬ 2 ^ (p.width - 1) ≤ v.toNat := by
      intro hc
      have : ((2 ^ (p.width - 1) : Nat) : Int) ≤ ((v.toNat : Nat) : Int) := by exact_mod_cast hc
      rw [hcast, hP] at this
      omega
    simp only [hlt, decide_False, Bool.and_false, Bool.false_eq_true, if_false]
    exact hcast
  · have hmod : v % 2 ^ p.width = v + 2 ^ p.width := by
      rw [← Int.add_emod_self]
      exact Int.emod_eq_of_lt (by omega) (by omega)
    rw [hmod]
    have hnn : 0 ≤ v + 2 ^ p.width := by omega
    have hcast : (((v + 2 ^ p.width).toNat : Nat) : Int) = v + 2 ^ p.width :=
      Int.toNat_of_nonneg hnn
    have hge : 2 ^ (p.width - 1) ≤ (v + 2 ^ p.width).toNat := by
      have : ((2 ^ (p.width - 1) : Nat) : Int) ≤ (((v + 2 ^ p.width).toNat : Nat) : Int) := by
        rw [hcast, hP]
        omega
      exact_mod_cast this
    simp only [hge, decide_True, Bool.and_self, if_true]
    rw [hcast]
    omega

theorem promote_signed (t : IntegralType) (hs : t.isSigned = true) :
    (promote t).isSigned = true := by
  unfold promote
  split
  · rfl
  · exact hs

theorem promote_width_pos (t : IntegralType) (hw : 0 < t.width) : 0 < (promote t).width :=
  Nat.lt_of_lt_of_le hw (width_le_promote t)

theorem pow_pred_le_promote (t : IntegralType) :
    (2 : Int) ^ (t.width - 1) ≤ (2 : Int) ^ ((promote t).width - 1) := by
  have h := width_le_promote t
  have h2 : 2 ^ (t.width - 1) ≤ 2 ^ ((promote t).width - 1) :=
    Nat.pow_le_pow_right (by decide) (by omega)
  exact_mod_cast h2

/-- Promotion of a signed operand preserves its value. -/
theorem toValue_convert_promote (t : IntegralType) (n : Nat) (hs : t.isSigned = true)
    (hw : 0 < t.width) (hn : t.Holds n) :
    toValue (promote t) (convert t (promote t) n) = toValue t n := by
  have hr := toValue_range_signed t n hs hw hn
  have hle := pow_pred_le_promote t
  unfold convert
  exact toValue_ofValue_signed (promote t) _ (promote_signed t hs) (promote_width_pos t hw)
    (by omega) (by omega)

/-- On a non-negative signed operand `cxpr::abs` returns the operand. -/
theorem cxpr_abs_nonneg (t : IntegralType) (n : Nat) (hs : t.isSigned = true)
    (hw : 0 < t.width) (hn : t.Holds n) (hv : 0 ≤ toValue t n) : cxpr_abs t n = some n := by
  unfold cxpr_abs
  simp only [hs, if_true, toValue_convert_promote t n hs hw hn, hv,
    convert_roundtrip t n hw hn]

/-- On a negative signed operand other than the least value `cxpr::abs`
returns the pattern of the negated value. -/
theorem cxpr_abs_neg (t : IntegralType) (n : Nat) (hs : t.isSigned = true)
    (hw : 0 < t.width) (hn : t.Holds n) (hv : toValue t n < 0)
    (hmin : toValue t n ≠ -(2 : Int) ^ (t.width - 1)) :
    cxpr_abs t n = some (ofValue t (-toValue t n)) := by
  have hr := toValue_range_signed t n hs hw hn
  have hle := pow_pred_le_promote t
  have hps := promote_signed t hs
  have hnot : ¬ 0 ≤ toValue t n := by omega
  have hne : toValue t n ≠ -(2 : Int) ^ ((promote t).width - 1) := by omega
  have hback : toValue (promote t) (ofValue (promote t) (-toValue t n)) = -toValue t n :=
    toValue_ofValue_signed (promote t) _ hps (promote_width_pos t hw) (by omega) (by omega)
  unfold cxpr_abs negate
  simp only [hs, if_true, toValue_convert_promote t n hs hw hn, hnot, if_false, hps, hne,
    decide_False, Bool.and_false, Bool.false_eq_true, Option.map_some']
  unfold convert
  rw [hback]

/-- C20: for a signed integer n of width w other than the least value
-2^(w-1), `cxpr::abs(n)` returns the mathematical absolute value of n: it is
non-negative, it is n when n >= 0 and -n otherwise; for an unsigned integer n,
`cxpr::abs(n)` returns n. -/
theorem C20_cxpr_abs (t : IntegralType) (n : Nat) (hw : 0 < t.width) (hn : t.Holds n) :
    (t.isSigned = true → toValue t n ≠ -(2 : Int) ^ (t.width - 1) →
      ∃ r, cxpr_abs t n = some r ∧ t.Holds r ∧ toValue t r = |toValue t n| ∧
        0 ≤ toValue t r ∧
        (0 ≤ toValue t n → toValue t r = toValue t n) ∧
        (toValue t n < 0 → toValue t r = -toValue t n)) ∧
    (t.isSigned = false → cxpr_abs t n = some n) := by
  constructor
  · intro hs hmin
    have hr := toValue_range_signed t n hs hw hn
    by_cases hv : 0 ≤ toValue t n
    · refine ⟨n, cxpr_abs_nonneg t n hs hw hn hv, hn, (abs_of_nonneg hv).symm, hv,
        fun _ => rfl, fun h => ?_⟩
      omega
    · have hlt : toValue t n < 0 := by omega
      have hback : toValue t (ofValue t (-toValue t n)) = -toValue t n :=
        toValue_ofValue_signed t _ hs hw (by omega) (by omega)
      refine ⟨ofValue t (-toValue t n), cxpr_abs_neg t n hs hw hn hlt hmin,
        ofValue_holds t _, ?_, ?_, fun h => ?_, fun _ => hback⟩
      · rw [hback, abs_of_neg hlt]
      · rw [hback]; omega
      · omega
  · intro hu
    unfold cxpr_abs
    simp [hu]

/-- Witness of C20 on `int`: n = -5 (pattern 2^32 - 5), whose absolute value is 5. -/
theorem C20_cxpr_abs_witness :
    (0 < intType.width ∧ intType.Holds 4294967291 ∧ intType.isSigned = true ∧
      toValue intType 4294967291 ≠ -(2 : Int) ^ (intType.width - 1) ∧
      cxpr_abs intType 4294967291 = some 5) ∧
    (intType.isSigned = true → toValue intType 4294967291 ≠ -(2 : Int) ^ (intType.width - 1) →
      ∃ r, cxpr_abs intType 4294967291 = some r ∧ intType.Holds r ∧
        toValue intType r = |toValue intType 4294967291| ∧
        0 ≤ toValue intType r ∧
        (0 ≤ toValue intType 4294967291 → toValue intType r = toValue intType 4294967291) ∧
        (toValue intType 4294967291 < 0 → toValue intType r = -toValue intType 4294967291)) ∧
    (intType.isSigned = false → cxpr_abs intType 4294967291 = some 4294967291) :=
  ⟨⟨by decide, by decide, rfl, by decide, by decide⟩,
    C20_cxpr_abs intType 4294967291 (by decide) (by decide)⟩

theorem sinkOf_append (a b : List Event) : sinkOf (a ++ b) = sinkOf a ++ sinkOf b := by
  induction a with
  | nil => simp [sinkOf]
  | cons e rest ih =>
    cases e with
    | write s => simp [sinkOf, ih, String.append_assoc]
    | trap k => simp [sinkOf, ih]

theorem trapsOf_append (a b : List Event) : trapsOf (a ++ b) = trapsOf a + trapsOf b := by
  induction a with
  | nil => simp [trapsOf]
  | cons e rest ih =>
    cases e with
    | write s => simp [trapsOf, ih]
    | trap k => simp [trapsOf, ih]; omega

theorem padText_width_zero (st : Stream) (head body : String) (h : st.width = 0) :
    padText st head body = head ++ body := by
  simp [padText, h]

theorem formatStr_plain (st : Stream) (s : String) (h : st.Plain) : formatStr s st = s := by
  unfold formatStr
  rw [padText_width_zero st _ _ h.2.1]
  exact String.empty_append s

theorem digitsOf_ten (n : Nat) : digitsOf 10 false n = toString n := rfl

/-- On a plain stream an `int` is written in decimal. -/
theorem formatInt_plain (st : Stream) (v : Int) (h : st.Plain) : formatInt v st = toString v := by
  obtain ⟨_, hw, hb, hp, hg⟩ := h
  unfold formatInt
  rw [hb]
  simp only [hp, Bool.false_eq_true, if_false, hg, digitsOf_ten]
  rw [padText_width_zero st _ _ hw]
  cases v with
  | ofNat m =>
    have : ¬ Int.ofNat m < 0 := Int.not_lt.2 (Int.ofNat_zero_le m)
    simp only [this, if_false]
    exact String.empty_append _
  | negSucc m =>
    have : Int.negSucc m < 0 := Int.negSucc_lt_zero m
    simp only [this, if_true]
    rfl

/-- One insertion into a plain stream: the text is written and the stream is
as before. -/
theorem streamInsert_plain (st : Stream) (log : List Event) (text : Stream → String)
    (h : st.Plain) :
    streamInsert ⟨st, log, false⟩ text = ⟨st, log ++ [Event.write (text st)], false⟩ := by
  obtain ⟨hg, hw, _⟩ := h
  cases st
  simp only at hg hw
  subst hg hw
  simp [streamInsert]

/-- On a plain stream a failing `custom_assert` performs its eleven writes and
then the trap. -/
theorem custom_assert_plain (tc : Toolchain) (st : Stream) (log : List Event)
    (expr_str file msg : String) (line : Int) (h : st.Plain) :
    custom_assert tc st log expr_str false file line msg =
      ⟨st, log ++ (["Assert failed:\t", msg, "\n", "Expected:\t", expr_str, "\n",
          "Source:\t\t", file, ", line ", toString line, "\n"].map Event.write)
        ++ [Event.trap (NANO_DEBUGTRAP_IMPL tc)], false⟩ := by
  unfold custom_assert
  simp only [Bool.false_eq_true, if_false, streamInsert_plain _ _ _ h, formatStr_plain st _ h,
    formatInt_plain st _ h, debugtrap, List.append_assoc, List.map, List.cons_append,
    List.nil_append]

/-- On a plain stream `custom_error` performs its eight writes and then the
trap. -/
theorem custom_error_plain (tc : Toolchain) (st : Stream) (log : List Event)
    (file msg : String) (line : Int) (h : st.Plain) :
    custom_error tc st log file line msg =
      ⟨st, log ++ (["Assert failed:\t", msg, "\n", "Source:\t\t", file, ", line ",
          toString line, "\n"].map Event.write)
        ++ [Event.trap (NANO_DEBUGTRAP_IMPL tc)], false⟩ := by
  unfold custom_error
  simp only [Bool.false_eq_true, if_false, streamInsert_plain _ _ _ h, formatStr_plain st _ h,
    formatInt_plain st _ h, debugtrap, List.append_assoc, List.map, List.cons_append,
    List.nil_append]

theorem initial_plain : Stream.initial.Plain :=
  ⟨rfl, rfl, rfl, rfl, fun _ => rfl⟩

/-- C12 (as stated) fails: after `std::cerr << std::hex` the failing
`assert(1 == 2, "values differ")` at f.cc line 42 writes "line 2a", so the
third line is not "Source:\t\tf.cc, line 42". -/
theorem C12_custom_assert_counterexample :
    sinkOf (custom_assert ⟨false, false, true, true⟩ Stream.afterHex [] "1 == 2" false "f.cc" 42
        "values differ").log
      = "Assert failed:\tvalues differ\nExpected:\t1 == 2\nSource:\t\tf.cc, line 2a\n" ∧
    sinkOf (custom_assert ⟨false, false, true, true⟩ Stream.afterHex [] "1 == 2" false "f.cc" 42
        "values differ").log
      ≠ "Assert failed:\tvalues differ\nExpected:\t1 == 2\nSource:\t\tf.cc, line 42\n" := by
  decide

/-- C12 (amended): in the Active (debug) configuration, for every expression
text, message, file and line, `custom_assert` with a true condition writes
nothing to the diagnostic sink and does not trap, whatever the stream state;
with a false condition, when `std::cerr` is good, has field width 0 and
formats integers in plain decimal (`dec`, no `showpos`, no digit grouping), it
appends to the sink exactly the three lines "Assert failed:\t<msg>",
"Expected:\t<expr-text>", "Source:\t\t<file>, line <line>", each ended by a
newline and in that order, and after these writes invokes the trap once. -/
theorem C12_custom_assert (tc : Toolchain) (st : Stream) (log : List Event)
    (expr_str file msg : String) (line : Int) (hst : st.Plain) :
    (∀ st2 : Stream, custom_assert tc st2 log expr_str true file line msg = ⟨st2, log, false⟩) ∧
    (∃ writes : List String,
      (custom_assert tc st log expr_str false file line msg).log
        = log ++ writes.map Event.write ++ [Event.trap (NANO_DEBUGTRAP_IMPL tc)] ∧
      sinkOf (writes.map Event.write)
        = "Assert failed:\t" ++ msg ++ "\n" ++ "Expected:\t" ++ expr_str ++ "\n"
            ++ "Source:\t\t" ++ file ++ ", line " ++ toString line ++ "\n") ∧
    sinkOf (custom_assert tc st log expr_str false file line msg).log
      = sinkOf log ++ ("Assert failed:\t" ++ msg ++ "\n" ++ "Expected:\t" ++ expr_str ++ "\n"
            ++ "Source:\t\t" ++ file ++ ", line " ++ toString line ++ "\n") ∧
    trapsOf (custom_assert tc st log expr_str false file line msg).log = trapsOf log + 1 ∧
    (custom_assert tc st log expr_str false file line msg).thrown = false := by
  rw [custom_assert_plain tc st log expr_str file msg line hst]
  refine ⟨fun st2 => rfl, ?_, ?_, ?_, rfl⟩
  · refine ⟨["Assert failed:\t", msg, "\n", "Expected:\t", expr_str, "\n",
      "Source:\t\t", file, ", line ", toString line, "\n"], rfl, ?_⟩
    simp only [List.map, sinkOf, String.append_assoc, String.append_empty]
  · simp only [sinkOf_append, List.map, sinkOf, String.append_assoc, String.append_empty]
  · simp only [trapsOf_append, List.map, trapsOf]

/-- Witness of C12 (amended): `assert(1 == 2, "values differ")` at f.cc line 42
on the stream in its initial state sends exactly the three lines and one
trap. -/
theorem C12_custom_assert_witness :
    Stream.initial.Plain ∧
    sinkOf (custom_assert ⟨false, false, true, true⟩ Stream.initial [] "1 == 2" false "f.cc" 42
        "values differ").log
      = "Assert failed:\tvalues differ\nExpected:\t1 == 2\nSource:\t\tf.cc, line 42\n" ∧
    trapsOf (custom_assert ⟨false, false, true, true⟩ Stream.initial [] "1 == 2" false "f.cc" 42
        "values differ").log = 1 :=
  ⟨initial_plain,
    (C12_custom_assert ⟨false, false, true, true⟩ Stream.initial [] "1 == 2" "f.cc"
      "values differ" 42 initial_plain).2.2.1,
    (C12_custom_assert ⟨false, false, true, true⟩ Stream.initial [] "1 == 2" "f.cc"
      "values differ" 42 initial_plain).2.2.2.1⟩

/-- C13 (as stated) fails: after `std::cerr << std::hex`, `error("values
differ")` at f.cc line 42 writes "line 2a", so the second line is not
"Source:\t\tf.cc, line 42". -/
theorem C13_custom_error_counterexample :
    sinkOf (custom_error ⟨false, false, true, true⟩ Stream.afterHex [] "f.cc" 42
        "values differ").log
      = "Assert failed:\tvalues differ\nSource:\t\tf.cc, line 2a\n" ∧
    sinkOf (custom_error ⟨false, false, true, true⟩ Stream.afterHex [] "f.cc" 42
        "values differ").log
      ≠ "Assert failed:\tvalues differ\nSource:\t\tf.cc, line 42\n" := by
  decide

/-- C13 (amended): in the Active (debug) configuration, for every message,
file and line, when `std::cerr` is good, has field width 0 and formats
integers in plain decimal (`dec`, no `showpos`, no digit grouping),
`custom_error` unconditionally appends to the diagnostic sink exactly the two
lines "Assert failed:\t<msg>" and "Source:\t\t<file>, line <line>" (with no
"Expected:" line between them) and after these writes invokes the trap once. -/
theorem C13_custom_error (tc : Toolchain) (st : Stream) (log : List Event)
    (file msg : String) (line : Int) (hst : st.Plain) :
    (∃ writes : List String,
      (custom_error tc st log file line msg).log
        = log ++ writes.map Event.write ++ [Event.trap (NANO_DEBUGTRAP_IMPL tc)] ∧
      sinkOf (writes.map Event.write)
        = "Assert failed:\t" ++ msg ++ "\n" ++ "Source:\t\t" ++ file ++ ", line "
            ++ toString line ++ "\n") ∧
    sinkOf (custom_error tc st log file line msg).log
      = sinkOf log ++ ("Assert failed:\t" ++ msg ++ "\n" ++ "Source:\t\t" ++ file ++ ", line "
            ++ toString line ++ "\n") ∧
    trapsOf (custom_error tc st log file line msg).log = trapsOf log + 1 ∧
    (custom_error tc st log file line msg).thrown = false := by
  rw [custom_error_plain tc st log file msg line hst]
  refine ⟨?_, ?_, ?_, rfl⟩
  · refine ⟨["Assert failed:\t", msg, "\n", "Source:\t\t", file, ", line ",
      toString line, "\n"], rfl, ?_⟩
    simp only [List.map, sinkOf, String.append_assoc, String.append_empty]
  · simp only [sinkOf_append, List.map, sinkOf, String.append_assoc, String.append_empty]
  · simp only [trapsOf_append, List.map, trapsOf]

/-- Witness of C13 (amended): `error("values differ")` at f.cc line 42 on the
stream in its initial state. -/
theorem C13_custom_error_witness :
    Stream.initial.Plain ∧
    sinkOf (custom_error ⟨false, false, true, true⟩ Stream.initial [] "f.cc" 42
        "values differ").log
      = "Assert failed:\tvalues differ\nSource:\t\tf.cc, line 42\n" ∧
    trapsOf (custom_error ⟨false, false, true, true⟩ Stream.initial [] "f.cc" 42
        "values differ").log = 1 :=
  ⟨initial_plain,
    (C13_custom_error ⟨false, false, true, true⟩ Stream.initial [] "f.cc" "values differ" 42
      initial_plain).2.1,
    (C13_custom_error ⟨false, false, true, true⟩ Stream.initial [] "f.cc" "values differ" 42
      initial_plain).2.2.1⟩

/-- C15: in the Inert (`NDEBUG`) configuration, `NANO_ASSERT(expr, msg)` and
`NANO_ERROR(msg)` write nothing to the diagnostic sink, never trap and do not
evaluate their arguments, whatever the condition and whatever side effects the
argument expressions have: the program state after the call site is the state
before it. For the condition `++n == 0` the counter stays 0 in the Inert build,
while the Active build evaluates it (the counter becomes 1) and reports. -/
theorem C15_inert_no_effect {S : Type} (tc : Toolchain) (e : Expr S Bool) (m : Expr S String)
    (file : String) (line : Int) (exprFirst : Bool) (w : World S) :
    NANO_ASSERT ⟨true, tc⟩ e m file line exprFirst w = w ∧
    NANO_ERROR ⟨true, tc⟩ m file line w = w ∧
    sinkOf (NANO_ASSERT ⟨true, tc⟩ e m file line exprFirst w).log = sinkOf w.log ∧
    trapsOf (NANO_ASSERT ⟨true, tc⟩ e m file line exprFirst w).log = trapsOf w.log ∧
    sinkOf (NANO_ERROR ⟨true, tc⟩ m file line w).log = sinkOf w.log ∧
    trapsOf (NANO_ERROR ⟨true, tc⟩ m file line w).log = trapsOf w.log ∧
    NANO_ASSERT ⟨true, tc⟩ incrementExpr (literalMsg "n is zero") "f.cc" 42 exprFirst
        ⟨0, [], Stream.initial, false⟩
      = ⟨0, [], Stream.initial, false⟩ ∧
    (NANO_ASSERT ⟨false, tc⟩ incrementExpr (literalMsg "n is zero") "f.cc" 42 exprFirst
      ⟨0, [], Stream.initial, false⟩).user = 1 ∧
    trapsOf (NANO_ASSERT ⟨false, tc⟩ incrementExpr (literalMsg "n is zero") "f.cc" 42 exprFirst
      ⟨0, [], Stream.initial, false⟩).log = 1 := by
  refine ⟨rfl, rfl, rfl, rfl, rfl, rfl, rfl, ?_, ?_⟩
  · cases exprFirst <;> rfl
  · cases exprFirst <;> rfl

theorem conjunction_eq_all (l : List Bool) : conjunction l = l.all id := by
  induction l with
  | nil => rfl
  | cons b rest ih =>
    cases rest with
    | nil => simp [conjunction]
    | cons c rest2 =>
      rw [conjunction, ih]
      cases b <;> simp

theorem detector_value_eq (Op : OpTemplate) (T : CType) :
    detector_value CType.nonesuch CType.void Op [T] = (Op [T]).isSome := by
  unfold detector_value void_t
  cases Op [T] <;> simp

theorem has_members_iff (T : CType) (Ops : List OpTemplate) :
    has_members T Ops = true ↔ ∀ Op ∈ Ops, (Op [T]).isSome = true := by
  unfold has_members
  rw [conjunction_eq_all]
  simp [List.all_eq_true, detector_value_eq]

/-- C14: for a type T and a list of operation templates Op1..OpN (N >= 0),
`has_members<T, Op1..OpN>::value` is true iff every `OpI<T>` is well-formed
(`detector_value` is true for each), and false as soon as one is ill-formed;
for the empty list it is true. Over (well-formed, ill-formed) it is false, over
(well-formed, well-formed) it is true. `enable_if_has_members_t` names a type
exactly when the value is true. -/
theorem C14_has_members (T : CType) (Ops : List OpTemplate) :
    (has_members T Ops = true ↔ ∀ Op ∈ Ops, (Op [T]).isSome = true) ∧
    (has_members T Ops = true ↔
      ∀ Op ∈ Ops, detector_value CType.nonesuch CType.void Op [T] = true) ∧
    ((∃ Op ∈ Ops, Op [T] = none) → has_members T Ops = false) ∧
    has_members T [] = true ∧
    has_members T [wellFormedOp, illFormedOp] = false ∧
    has_members T [wellFormedOp, wellFormedOp] = true ∧
    ((enable_if_has_members_t T Ops).isSome = has_members T Ops) := by
  refine ⟨has_members_iff T Ops, ?_, ?_, rfl, rfl, rfl, ?_⟩
  · rw [has_members_iff]
    constructor
    · intro h Op hOp
      rw [detector_value_eq]
      exact h Op hOp
    · intro h Op hOp
      rw [← detector_value_eq]
      exact h Op hOp
  · rintro ⟨Op, hOp, hnone⟩
    cases hh : has_members T Ops
    · rfl
    · have := (has_members_iff T Ops).1 hh Op hOp
      rw [hnone] at this
      exact absurd this (by simp)
  · unfold enable_if_has_members_t
    cases has_members T Ops <;> rfl

/-! ## Tolerance comparator: rounding, symmetry, reflexivity -/

theorem bitLengthAux_spec (fuel : Nat) : ∀ a, a ≤ fuel → a ≠ 0 →
    2 ^ (bitLengthAux fuel a - 1) ≤ a ∧ a < 2 ^ bitLengthAux fuel a ∧
      0 < bitLengthAux fuel a := by
  induction fuel with
  | zero => intro a h h0; omega
  | succ k ih =>
    intro a h h0
    unfold bitLengthAux
    simp only [h0, if_false]
    by_cases h2 : a / 2 = 0
    · have ha : a = 1 := by omega
      subst ha
      cases k <;> simp [bitLengthAux]
    · obtain ⟨h3, h4, h5⟩ := ih (a / 2) (by omega) h2
      refine ⟨?_, ?_, by omega⟩
      · simp only [Nat.add_sub_cancel]
        obtain ⟨j, hj⟩ : ∃ j, bitLengthAux k (a / 2) = j + 1 := ⟨_, (Nat.succ_pred_eq_of_pos h5).symm⟩
        rw [hj] at h3 ⊢
        simp only [Nat.add_sub_cancel] at h3
        rw [pow_succ]
        omega
      · rw [pow_succ]
        omega

/-- The bit length brackets a non-zero number between two powers of two. -/
theorem bitLength_spec (a : Nat) (h0 : a ≠ 0) :
    2 ^ (bitLength a - 1) ≤ a ∧ a < 2 ^ bitLength a ∧ 0 < bitLength a :=
  bitLengthAux_spec a a (Nat.le_refl a) h0

theorem two_pow_split (b k : Nat) (h : k ≤ b) : 2 ^ b = 2 ^ (b - k) * 2 ^ k := by
  rw [← pow_add]
  congr 1
  omega

theorem isValid_fin_iff (f : Format) (s : Bool) (m : Nat) (e : Int) :
    (FP.fin s m e).isValid f = true ↔
      (2 ^ (f.prec - 1) ≤ m ∧ m < 2 ^ f.prec ∧ f.qmin ≤ e ∧ e ≤ f.qmax) ∨
      (m < 2 ^ (f.prec - 1) ∧ e = f.qmin) := by
  simp only [FP.isValid, Bool.or_eq_true, Bool.and_eq_true, decide_eq_true_eq, and_assoc]

theorem pow_pred_lt_pow (p : Nat) (hp : 0 < p) : 2 ^ (p - 1) < 2 ^ p :=
  Nat.pow_lt_pow_right (by decide) (by omega)

/-- The quotient of the rounding step and its successor stay within the
bounds of the dividend. -/
theorem div_pow_bounds (a s lo hi : Nat) (hlo : 2 ^ (lo + s) ≤ a) (hhi : a < 2 ^ (hi + s)) :
    2 ^ lo ≤ a / 2 ^ s ∧ a / 2 ^ s < 2 ^ hi := by
  have hs : 0 < 2 ^ s := Nat.two_pow_pos s
  constructor
  · rw [Nat.le_div_iff_mul_le hs, ← pow_add]
    exact hlo
  · rw [Nat.div_lt_iff_lt_mul hs, ← pow_add]
    exact hhi

theorem div_pow_upper (a s hi : Nat) (hhi : a < 2 ^ (hi + s)) : a / 2 ^ s < 2 ^ hi := by
  have hs : 0 < 2 ^ s := Nat.two_pow_pos s
  rw [Nat.div_lt_iff_lt_mul hs, ← pow_add]
  exact hhi

/-- Rounding yields an object of the format. -/
theorem round_valid (f : Format) (hp : 0 < f.prec) (neg : Bool) (a : Nat) (e : Int) :
    (round f neg a e).isValid f = true := by
  have hpp := pow_pred_lt_pow f.prec hp
  unfold round
  by_cases h0 : a = 0
  · simp only [h0, if_true]
    rw [isValid_fin_iff]
    exact Or.inr ⟨Nat.two_pow_pos _, rfl⟩
  simp only [h0, if_false]
  obtain ⟨hb1, hb2, hb3⟩ := bitLength_spec a h0
  by_cases hc : f.qmin ≤ e + (bitLength a : Int) - (f.prec : Int)
  · rw [max_eq_left hc]
    by_cases hqe : e + (bitLength a : Int) - (f.prec : Int) ≤ e
    · simp only [hqe, if_true]
      split
      · rfl
      · next hov =>
        rw [isValid_fin_iff]
        left
        have hk : (e - (e + (bitLength a : Int) - (f.prec : Int))).toNat
            = f.prec - bitLength a := by omega
        rw [hk]
        have hle : bitLength a ≤ f.prec := by omega
        refine ⟨?_, ?_, hc, by omega⟩
        · have : 2 ^ (f.prec - 1) = 2 ^ (bitLength a - 1) * 2 ^ (f.prec - bitLength a) := by
            rw [← pow_add]; congr 1; omega
          rw [this]
          exact Nat.mul_le_mul_right _ hb1
        · have : 2 ^ f.prec = 2 ^ bitLength a * 2 ^ (f.prec - bitLength a) := by
            rw [← pow_add]; congr 1; omega
          rw [this]
          exact Nat.mul_lt_mul_of_pos_right hb2 (Nat.two_pow_pos _)
    · simp only [hqe, if_false]
      have hk : (e + (bitLength a : Int) - (f.prec : Int) - e).toNat
          = bitLength a - f.prec := by omega
      rw [hk]
      have hlt : f.prec < bitLength a := by omega
      have hbnd := div_pow_bounds a (bitLength a - f.prec) (f.prec - 1) f.prec
        (by rw [show f.prec - 1 + (bitLength a - f.prec) = bitLength a - 1 by omega]; exact hb1)
        (by rw [show f.prec + (bitLength a - f.prec) = bitLength a by omega]; exact hb2)
      generalize a / 2 ^ (bitLength a - f.prec) = n at hbnd ⊢
      generalize a % 2 ^ (bitLength a - f.prec) = r
      generalize 2 ^ (bitLength a - f.prec - 1) = half
      generalize hdef : (if half < r ∨ (r = half ∧ n % 2 = 1) then n + 1 else n) = n1
      have hn1 : n ≤ n1 ∧ n1 ≤ n + 1 := by
        rw [← hdef]
        split <;> omega
      split
      · split
        · rfl
        · rw [isValid_fin_iff]
          left
          exact ⟨Nat.le_refl _, hpp, by omega, by omega⟩
      · split
        · rfl
        · rw [isValid_fin_iff]
          left
          exact ⟨by omega, by omega, hc, by omega⟩
  · have hc2 : e + (bitLength a : Int) - (f.prec : Int) ≤ f.qmin := by omega
    rw [max_eq_right hc2]
    by_cases hqe : f.qmin ≤ e
    · simp only [hqe, if_true]
      split
      · rfl
      · rw [isValid_fin_iff]
        right
        refine ⟨?_, rfl⟩
        have hle : 2 ^ (bitLength a + (e - f.qmin).toNat) ≤ 2 ^ (f.prec - 1) :=
          Nat.pow_le_pow_right (by decide) (by omega)
        have : a * 2 ^ (e - f.qmin).toNat < 2 ^ (bitLength a + (e - f.qmin).toNat) := by
          rw [pow_add]
          exact Nat.mul_lt_mul_of_pos_right hb2 (Nat.two_pow_pos _)
        omega
    · simp only [hqe, if_false]
      have hup : a < 2 ^ (f.prec - 1 + (f.qmin - e).toNat) :=
        Nat.lt_of_lt_of_le hb2 (Nat.pow_le_pow_right (by decide) (by omega))
      have hbnd := div_pow_upper a (f.qmin - e).toNat (f.prec - 1) hup
      generalize a / 2 ^ (f.qmin - e).toNat = n at hbnd ⊢
      generalize a % 2 ^ (f.qmin - e).toNat = r
      generalize 2 ^ ((f.qmin - e).toNat - 1) = half
      generalize hdef : (if half < r ∨ (r = half ∧ n % 2 = 1) then n + 1 else n) = n1
      have hn1 : n ≤ n1 ∧ n1 ≤ n + 1 := by
        rw [← hdef]
        split <;> omega
      split
      · exfalso
        omega
      · split
        · rfl
        · rw [isValid_fin_iff]
          by_cases hn : n1 < 2 ^ (f.prec - 1)
          · exact Or.inr ⟨hn, rfl⟩
          · exact Or.inl ⟨by omega, by omega, le_refl _, by omega⟩

/-- Rounding is symmetric in the sign: the magnitude of the result does not
depend on it. -/
theorem abs_round (f : Format) (s : Bool) (a : Nat) (e : Int) :
    FP.abs (round f s a e) = round f false a e := by
  simp only [round]
  split_ifs <;> rfl

theorem dyadic_sub_swap (x y : Dyadic) :
    (Dyadic.sub y x).m = -(Dyadic.sub x y).m ∧ (Dyadic.sub y x).e = (Dyadic.sub x y).e := by
  unfold Dyadic.sub
  simp only [min_comm y.e x.e]
  exact ⟨by ring, trivial⟩

/-- The magnitude of a difference does not depend on the order of the
operands. -/
theorem abs_sub_comm (f : Format) (x y : FP) :
    FP.abs (FP.sub f x y) = FP.abs (FP.sub f y x) := by
  cases x with
  | nan => cases y <;> rfl
  | inf s =>
    cases y with
    | nan => rfl
    | inf s2 => cases s <;> cases s2 <;> rfl
    | fin s2 m2 e2 => rfl
  | fin s1 m1 e1 =>
    cases y with
    | nan => rfl
    | inf s2 => rfl
    | fin s2 m2 e2 =>
      obtain ⟨hm, he⟩ := dyadic_sub_swap (FP.fin s1 m1 e1).toDyadic (FP.fin s2 m2 e2).toDyadic
      simp only [FP.sub]
      rw [hm, he]
      by_cases hz : (Dyadic.sub (FP.fin s1 m1 e1).toDyadic (FP.fin s2 m2 e2).toDyadic).m = 0
      · simp only [hz, neg_zero, if_true, abs_round]
      · have hz2 : ¬ -(Dyadic.sub (FP.fin s1 m1 e1).toDyadic (FP.fin s2 m2 e2).toDyadic).m = 0 := by
          omega
        simp only [hz, hz2, if_false, abs_round, Int.natAbs_neg]

theorem valid_fin_bounds (f : Format) (hp : 0 < f.prec) (s : Bool) (m : Nat) (e : Int)
    (h : (FP.fin s m e).isValid f = true) :
    m < 2 ^ f.prec ∧ f.qmin ≤ e ∧ (e ≠ f.qmin → 2 ^ (f.prec - 1) ≤ m) := by
  have hpp := pow_pred_lt_pow f.prec hp
  rw [isValid_fin_iff] at h
  rcases h with ⟨h1, h2, h3, _⟩ | ⟨h1, h2⟩
  · exact ⟨h2, h3, fun _ => h1⟩
  · exact ⟨by omega, by omega, fun hne => absurd h2 hne⟩

theorem abs_valid (f : Format) (x : FP) (h : x.isValid f = true) : (FP.abs x).isValid f = true := by
  cases x with
  | nan => rfl
  | inf s => rfl
  | fin s m e => exact h

/-- Two objects of the format with the same exact value and different
exponents do not exist: the one with the larger exponent is normal, which
makes the other significand too large. -/
theorem no_shifted_twin (p m1 m2 k : Nat) (hp : 0 < p) (hk : 0 < k) (h : m1 = m2 * 2 ^ k)
    (hm1 : m1 < 2 ^ p) (hm2 : 2 ^ (p - 1) ≤ m2) : False := by
  have h2 : 2 ≤ 2 ^ k := by
    calc 2 = 2 ^ 1 := rfl
      _ ≤ 2 ^ k := Nat.pow_le_pow_right (by decide) hk
  have h3 : m2 * 2 ≤ m2 * 2 ^ k := Nat.mul_le_mul_left _ h2
  have h4 := two_pow_pred p hp
  omega

/-- Non-negative finite objects of the format that compare equal are the same
object. -/
theorem fin_eq_of_not_lt (f : Format) (hp : 0 < f.prec) (m1 m2 : Nat) (e1 e2 : Int)
    (hx : (FP.fin false m1 e1).isValid f = true) (hy : (FP.fin false m2 e2).isValid f = true)
    (h1 : FP.lt (FP.fin false m1 e1) (FP.fin false m2 e2) = false)
    (h2 : FP.lt (FP.fin false m2 e2) (FP.fin false m1 e1) = false) :
    m1 = m2 ∧ e1 = e2 := by
  obtain ⟨hx1, hx2, hx3⟩ := valid_fin_bounds f hp false m1 e1 hx
  obtain ⟨hy1, hy2, hy3⟩ := valid_fin_bounds f hp false m2 e2 hy
  simp only [FP.lt, FP.toDyadic, Dyadic.lt, Dyadic.sub, Bool.false_eq_true, if_false,
    decide_eq_false_iff_not, not_lt] at h1 h2
  rw [min_comm e2 e1] at h2
  have heq : (m1 : Int) * ((2 ^ (e1 - min e1 e2).toNat : Nat) : Int)
      = (m2 : Int) * ((2 ^ (e2 - min e1 e2).toNat : Nat) : Int) := by
    omega
  rcases le_total e1 e2 with hle | hle
  · rw [min_eq_left hle] at heq
    have hk0 : (e1 - e1).toNat = 0 := by omega
    simp only [hk0, pow_zero, Nat.cast_one, mul_one] at heq
    have heqN : m1 = m2 * 2 ^ (e2 - e1).toNat := by exact_mod_cast heq
    by_cases hk : (e2 - e1).toNat = 0
    · rw [hk, pow_zero, mul_one] at heqN
      exact ⟨heqN, by omega⟩
    · exact absurd (no_shifted_twin f.prec m1 m2 _ hp (by omega) heqN hx1 (hy3 (by omega))) id
  · rw [min_eq_right hle] at heq
    have hk0 : (e2 - e2).toNat = 0 := by omega
    simp only [hk0, pow_zero, Nat.cast_one, mul_one] at heq
    have heqN : m2 = m1 * 2 ^ (e1 - e2).toNat := by exact_mod_cast heq.symm
    by_cases hk : (e1 - e2).toNat = 0
    · rw [hk, pow_zero, mul_one] at heqN
      exact ⟨heqN.symm, by omega⟩
    · exact absurd (no_shifted_twin f.prec m2 m1 _ hp (by omega) heqN hy1 (hx3 (by omega))) id

theorem lt_asymm_fin (m1 m2 : Nat) (e1 e2 : Int)
    (h : FP.lt (FP.fin false m1 e1) (FP.fin false m2 e2) = true) :
    FP.lt (FP.fin false m2 e2) (FP.fin false m1 e1) = false := by
  simp only [FP.lt, FP.toDyadic, Dyadic.lt, Dyadic.sub, Bool.false_eq_true, if_false,
    decide_eq_true_eq, decide_eq_false_iff_not, not_lt] at h ⊢
  rw [min_comm e2 e1]
  omega

/-- `std::max` of two magnitudes of the format does not depend on the order of
its arguments, NaN apart. -/
theorem max_abs_comm (f : Format) (hp : 0 < f.prec) (x y : FP)
    (hx : x.isValid f = true) (hy : y.isValid f = true) (hxn : x ≠ FP.nan) (hyn : y ≠ FP.nan) :
    FP.max (FP.abs x) (FP.abs y) = FP.max (FP.abs y) (FP.abs x) := by
  cases x with
  | nan => exact absurd rfl hxn
  | inf s =>
    cases y with
    | nan => exact absurd rfl hyn
    | inf s2 => rfl
    | fin s2 m2 e2 => rfl
  | fin s1 m1 e1 =>
    cases y with
    | nan => exact absurd rfl hyn
    | inf s2 => rfl
    | fin s2 m2 e2 =>
      simp only [FP.abs, FP.max]
      cases h1 : FP.lt (FP.fin false m1 e1) (FP.fin false m2 e2)
      · cases h2 : FP.lt (FP.fin false m2 e2) (FP.fin false m1 e1)
        · obtain ⟨hm, he⟩ := fin_eq_of_not_lt f hp m1 m2 e1 e2 hx hy h1 h2
          simp [hm, he]
        · simp
      · rw [lt_asymm_fin m1 m2 e1 e2 h1]
        simp

theorem cast_valid (f : Format) (hp : 0 < f.prec) (a : Operand) (h : a.isValid f = true) :
    (cast f a).isValid f = true := by
  cases a with
  | integer v => exact round_valid f hp _ _ _
  | floating x => exact h

theorem sub_nan_right (f : Format) (x : FP) : FP.sub f x FP.nan = FP.nan := by
  cases x <;> rfl

theorem sub_nan_left (f : Format) (y : FP) : FP.sub f FP.nan y = FP.nan := by
  cases y <;> rfl

theorem le_nan_left (y : FP) : FP.le FP.nan y = false := by
  cases y <;> rfl

theorem lt_nan_left (y : FP) : FP.lt FP.nan y = false := by
  cases y <;> rfl

/-- With a NaN operand the difference is NaN and both comparisons are false. -/
theorem fcompare_nan (f : Format) (a b : Operand)
    (h : cast f a = FP.nan ∨ cast f b = FP.nan) : fcompare f a b = false := by
  unfold fcompare
  have hs : FP.sub f (cast f a) (cast f b) = FP.nan := by
    rcases h with h | h
    · rw [h]; exact sub_nan_left f _
    · rw [h]; exact sub_nan_right f _
  simp only [hs, FP.abs, le_nan_left, lt_nan_left, Bool.or_self]

theorem fcompare_symm (f : Format) (hp : 0 < f.prec) (a b : Operand)
    (ha : a.isValid f = true) (hb : b.isValid f = true) : fcompare f a b = fcompare f b a := by
  by_cases hn : cast f a = FP.nan ∨ cast f b = FP.nan
  · rw [fcompare_nan f a b hn, fcompare_nan f b a (Or.symm hn)]
  · have hna : cast f a ≠ FP.nan := fun h => hn (Or.inl h)
    have hnb : cast f b ≠ FP.nan := fun h => hn (Or.inr h)
    unfold fcompare
    simp only []
    rw [abs_sub_comm f (cast f a) (cast f b),
      max_abs_comm f hp _ _ (cast_valid f hp a ha) (cast_valid f hp b hb) hna hnb]

theorem sub_self_fin (f : Format) (s : Bool) (m : Nat) (e : Int) :
    FP.abs (FP.sub f (FP.fin s m e) (FP.fin s m e)) = FP.fin false 0 f.qmin := by
  have hz : (Dyadic.sub (FP.fin s m e).toDyadic (FP.fin s m e).toDyadic).m = 0 := by
    simp [Dyadic.sub]
  simp only [FP.sub, hz, if_true, abs_round]
  simp [round]

theorem zero_le_epsilon (f : Format) : FP.le (FP.fin false 0 f.qmin) (epsilon f) = true := by
  simp only [FP.le, epsilon, FP.toDyadic, Dyadic.le, Dyadic.sub, Bool.false_eq_true, if_false,
    decide_eq_true_eq]
  have : (0 : Int) ≤ ((2 ^ (f.prec - 1) : Nat) : Int) *
      ((2 ^ (2 - 2 * (f.prec : Int) - min f.qmin (2 - 2 * (f.prec : Int))).toNat : Nat) : Int) :=
    by positivity
  simp only [Int.Nat.cast_ofNat_Int, zero_mul] at this ⊢
  omega

theorem fcompare_refl (f : Format) (a : Operand) (s : Bool) (m : Nat) (e : Int)
    (h : cast f a = FP.fin s m e) : fcompare f a a = true := by
  unfold fcompare
  simp only [h, sub_self_fin, zero_le_epsilon, Bool.true_or]

/-- C10: `fcompare` is symmetric: `fcompare(a, b) == fcompare(b, a)` for every
pair of operands (integers, finite values, infinities and NaN of the format). -/
theorem C10_fcompare_symmetric (f : Format) (a b : Operand) (hp : 0 < f.prec)
    (ha : a.isValid f = true) (hb : b.isValid f = true) :
    fcompare f a b = fcompare f b a :=
  fcompare_symm f hp a b ha hb

/-- Witness of C10 on `double`: the double 1.1 against the integer 3. -/
theorem C10_fcompare_symmetric_witness :
    (0 < binary64.prec ∧ (Operand.floating double_1_1).isValid binary64 = true ∧
      (Operand.integer 3).isValid binary64 = true) ∧
    fcompare binary64 (Operand.floating double_1_1) (Operand.integer 3)
      = fcompare binary64 (Operand.integer 3) (Operand.floating double_1_1) :=
  ⟨⟨by decide, by decide, by decide⟩,
    C10_fcompare_symmetric binary64 (Operand.floating double_1_1) (Operand.integer 3)
      (by decide) (by decide) (by decide)⟩

/-- C11: `fcompare` is reflexive on finite values: when a converts to a finite
object of F, `fcompare(a, a)` is true. (On NaN and on an infinity it is false,
the difference being NaN.) -/
theorem C11_fcompare_reflexive (f : Format) (a : Operand) (s : Bool) (m : Nat) (e : Int)
    (h : cast f a = FP.fin s m e) :
    fcompare f a a = true ∧
    fcompare f (Operand.floating FP.nan) (Operand.floating FP.nan) = false ∧
    (∀ sgn, fcompare f (Operand.floating (FP.inf sgn)) (Operand.floating (FP.inf sgn))
      = false) := by
  refine ⟨fcompare_refl f a s m e h, fcompare_nan f _ _ (Or.inl rfl), ?_⟩
  intro sgn
  simp [fcompare, cast, FP.sub, FP.abs, le_nan_left, lt_nan_left]

/-- Witness of C11 on `double`: a = 1.1. -/
theorem C11_fcompare_reflexive_witness :
    cast binary64 (Operand.floating double_1_1) = FP.fin false 4953959590107546 (-52) ∧
    fcompare binary64 (Operand.floating double_1_1) (Operand.floating double_1_1) = true :=
  ⟨rfl, (C11_fcompare_reflexive binary64 (Operand.floating double_1_1) false
    4953959590107546 (-52) rfl).1⟩

set_option maxRecDepth 8000 in
/-- C16: with the machine epsilon of `double`, `fcompare(1.0, 1.1)` is false
and `fcompare(1.0, 1.0 + epsilon/2)` is true. The literal 1.1 is the double
within half a unit in the last place of 1.1, and `1.0 + epsilon/2` rounds to
1.0. -/
theorem C16_fcompare_double_examples :
    fcompare binary64 (Operand.floating double_1_0) (Operand.floating double_1_1) = false ∧
    fcompare binary64 (Operand.floating double_1_0)
      (Operand.floating (FP.add binary64 double_1_0 (FP.div2 binary64 (epsilon binary64))))
      = true ∧
    double_1_0 = cast binary64 (Operand.integer 1) ∧
    (double_1_1.toDyadic.m * 10 - 11 * 2 ^ 52).natAbs * 2 ≤ 10 ∧
    FP.div2 binary64 (epsilon binary64) = FP.fin false (2 ^ 52) (-105) ∧
    FP.add binary64 double_1_0 (FP.div2 binary64 (epsilon binary64)) = double_1_0 := by
  decide!

end nano
